import Mathlib

/-!
Verification of the ccj-to-puz converter (CCJ crossword decoder and
PUZ-like encoder).

The definitions below are a shallow embedding of the Python sources
`ccj_to_puz/ccj_parse.py` and `ccj_to_puz/commonccj.py`:

* byte buffers (`bytes`) become `List Nat` whose entries are byte values;
* Python strings become `List Char` (Unicode code points);
* functions that can raise become `Except Err _`;
* the few `while` loops whose trip count is not structurally bounded take
  an explicit fuel argument; callers pass `d.length + 1`, which exceeds any
  possible number of iterations because every iteration either consumes at
  least one byte of the buffer or stops.
-/

/-- The exceptions raised by the Python code, one constructor per distinct
failure site (the spec's error taxonomy, §7). -/
inductive Err where
  | outOfRange
  | undecidableEncoding
  | malformed
  | unclassifiedClueSection
  | noSuchClueNumber
  | clueNumberParse
  | byteRange
  | packOverflow
  | outOfFuel
deriving Repr, DecidableEq

/-- `byte_at data i`: integer value of the byte at index `i`; an index past
the end raises (Python `IndexError`). -/
def byte_at (d : List Nat) (i : Nat) : Except Err Nat :=
  match d[i]? with
  | some b => .ok b
  | none => .error .outOfRange

/-- Python slice `d[a:b]`: the bytes at indices `a ≤ k < b` that actually
exist; out-of-range parts are silently dropped. -/
def pySlice (d : List Nat) (a b : Nat) : List Nat :=
  (List.range' a (b - a)).filterMap (fun k => d[k]?)

/-- Unicode general category Cc is exactly U+0000..U+001F and U+007F..U+009F. -/
def isCc (c : Char) : Bool :=
  decide (c.toNat < 0x20 ∨ (0x7f ≤ c.toNat ∧ c.toNat ≤ 0x9f))

/-- `contains_control_characters` from `ccj_parse.py`. -/
def contains_control_characters (s : List Char) : Bool :=
  s.any isCc

/-- The characters matched by Python's regex `\s` on `str`
(CPython's `Py_UNICODE_ISSPACE`). -/
def pyIsSpace (c : Char) : Bool :=
  decide ((9 ≤ c.toNat ∧ c.toNat ≤ 13) ∨ (0x1c ≤ c.toNat ∧ c.toNat ≤ 0x1f) ∨
    c.toNat = 32 ∨ c.toNat = 0x85 ∨ c.toNat = 0xa0 ∨ c.toNat = 0x1680 ∨
    (0x2000 ≤ c.toNat ∧ c.toNat ≤ 0x200a) ∨ c.toNat = 0x2028 ∨ c.toNat = 0x2029 ∨
    c.toNat = 0x202f ∨ c.toNat = 0x205f ∨ c.toNat = 0x3000)

/-- Worker for `re.sub(r'\s+', ' ', s)`: `inRun` records whether the previous
character was part of a whitespace run already replaced by one space. -/
def collapseWsAux (inRun : Bool) : List Char → List Char
  | [] => []
  | c :: rest =>
    if pyIsSpace c then
      if inRun then collapseWsAux true rest else ' ' :: collapseWsAux true rest
    else c :: collapseWsAux false rest

/-- `re.sub(r'\s+', ' ', s)`: replace every maximal whitespace run by one space. -/
def collapseWs (s : List Char) : List Char :=
  collapseWsAux false s

/-- UTF-8 continuation byte. -/
def isCont (b : Nat) : Bool :=
  decide (0x80 ≤ b ∧ b ≤ 0xbf)

/-- Strict UTF-8 decoding as Python's `bytes.decode('utf_8')`: rejects
overlong forms, surrogates and code points above U+10FFFF. -/
def utf8Decode : List Nat → Option (List Char)
  | [] => some []
  | b :: rest =>
    if b < 0x80 then
      (utf8Decode rest).map (fun cs => Char.ofNat b :: cs)
    else if 0xc2 ≤ b ∧ b ≤ 0xdf then
      match rest with
      | c1 :: r =>
        if isCont c1 then
          (utf8Decode r).map (fun cs => Char.ofNat ((b - 0xc0) * 0x40 + (c1 - 0x80)) :: cs)
        else none
      | [] => none
    else if 0xe0 ≤ b ∧ b ≤ 0xef then
      match rest with
      | c1 :: c2 :: r =>
        let okC1 : Bool :=
          if b = 0xe0 then decide (0xa0 ≤ c1 ∧ c1 ≤ 0xbf)
          else if b = 0xed then decide (0x80 ≤ c1 ∧ c1 ≤ 0x9f)
          else isCont c1
        if okC1 ∧ isCont c2 then
          (utf8Decode r).map (fun cs =>
            Char.ofNat ((b - 0xe0) * 0x1000 + (c1 - 0x80) * 0x40 + (c2 - 0x80)) :: cs)
        else none
      | _ => none
    else if 0xf0 ≤ b ∧ b ≤ 0xf4 then
      match rest with
      | c1 :: c2 :: c3 :: r =>
        let okC1 : Bool :=
          if b = 0xf0 then decide (0x90 ≤ c1 ∧ c1 ≤ 0xbf)
          else if b = 0xf4 then decide (0x80 ≤ c1 ∧ c1 ≤ 0x8f)
          else isCont c1
        if okC1 ∧ isCont c2 ∧ isCont c3 then
          (utf8Decode r).map (fun cs =>
            Char.ofNat ((b - 0xf0) * 0x40000 + (c1 - 0x80) * 0x1000 +
              (c2 - 0x80) * 0x40 + (c3 - 0x80)) :: cs)
        else none
      | _ => none
    else none

/-- `bytes.decode('latin_1')`: each byte is its own code point; never fails.
(Buffers model Python `bytes`, so entries are below 256.) -/
def latin1Decode (bs : List Nat) : Option (List Char) :=
  some (bs.map Char.ofNat)

/-- One byte of `bytes.decode('cp1252')`: the 0x80..0x9F row of the
Windows-1252 table, with its five unassigned bytes failing. -/
def cp1252Char (b : Nat) : Option Char :=
  if b < 0x80 ∨ 0xa0 ≤ b then some (Char.ofNat b)
  else if b = 0x80 then some (Char.ofNat 0x20ac)
  else if b = 0x82 then some (Char.ofNat 0x201a)
  else if b = 0x83 then some (Char.ofNat 0x0192)
  else if b = 0x84 then some (Char.ofNat 0x201e)
  else if b = 0x85 then some (Char.ofNat 0x2026)
  else if b = 0x86 then some (Char.ofNat 0x2020)
  else if b = 0x87 then some (Char.ofNat 0x2021)
  else if b = 0x88 then some (Char.ofNat 0x02c6)
  else if b = 0x89 then some (Char.ofNat 0x2030)
  else if b = 0x8a then some (Char.ofNat 0x0160)
  else if b = 0x8b then some (Char.ofNat 0x2039)
  else if b = 0x8c then some (Char.ofNat 0x0152)
  else if b = 0x8e then some (Char.ofNat 0x017d)
  else if b = 0x91 then some (Char.ofNat 0x2018)
  else if b = 0x92 then some (Char.ofNat 0x2019)
  else if b = 0x93 then some (Char.ofNat 0x201c)
  else if b = 0x94 then some (Char.ofNat 0x201d)
  else if b = 0x95 then some (Char.ofNat 0x2022)
  else if b = 0x96 then some (Char.ofNat 0x2013)
  else if b = 0x97 then some (Char.ofNat 0x2014)
  else if b = 0x98 then some (Char.ofNat 0x02dc)
  else if b = 0x99 then some (Char.ofNat 0x2122)
  else if b = 0x9a then some (Char.ofNat 0x0161)
  else if b = 0x9b then some (Char.ofNat 0x203a)
  else if b = 0x9c then some (Char.ofNat 0x0153)
  else if b = 0x9e then some (Char.ofNat 0x017e)
  else if b = 0x9f then some (Char.ofNat 0x0178)
  else none

/-- `bytes.decode('cp1252')`. -/
def cp1252Decode (bs : List Nat) : Option (List Char) :=
  bs.mapM cp1252Char

/-- The candidate decoders of `decode_bytes`, in the order the code tries
them: `('utf_8', 'latin_1', 'cp1252')`. -/
def pythonEncodings : List (List Nat → Option (List Char)) :=
  [utf8Decode, latin1Decode, cp1252Decode]

/-- The `for encoding in (...)` loop of `decode_bytes`: try each decoder;
after a successful decode collapse whitespace and accept the result unless
control characters remain; exhausting the list raises. -/
def tryEncodings : List (List Nat → Option (List Char)) → List Nat → Except Err (List Char)
  | [], _ => .error .undecidableEncoding
  | e :: rest, bs =>
    match e bs with
    | none => tryEncodings rest bs
    | some s =>
      let s' := collapseWs s
      if contains_control_characters s' then tryEncodings rest bs else .ok s'

/-- `decode_bytes` from `ccj_parse.py`: drop the style-toggle bytes
0x01/0x02/0x03, then probe the candidate encodings. -/
def decode_bytes (bs : List Nat) : Except Err (List Char) :=
  tryEncodings pythonEncodings (bs.filter (fun b => !(b == 1 || b == 2 || b == 3)))

/-- `read_string` from `ccj_parse.py`: one length byte, then that many bytes
decoded as text; the slice silently truncates at the end of the buffer. -/
def read_string (d : List Nat) (i : Nat) : Except Err (List Char × Nat) :=
  match byte_at d i with
  | .error e => .error e
  | .ok length =>
    match decode_bytes (pySlice d (i + 1) (i + length + 1)) with
    | .error e => .error e
    | .ok s => .ok (s, i + length + 1)

instance {ε α : Type} [DecidableEq ε] [DecidableEq α] : DecidableEq (Except ε α) := by
  intro x y
  cases x <;> cases y
  case error.error a b =>
    exact if h : a = b then .isTrue (by rw [h]) else .isFalse (by simp [h])
  case ok.ok a b =>
    exact if h : a = b then .isTrue (by rw [h]) else .isFalse (by simp [h])
  case error.ok a b => exact .isFalse (by simp)
  case ok.error a b => exact .isFalse (by simp)

/-! ### Helper lemmas about the byte primitives -/

theorem byte_at_ok_lt {d : List Nat} {i b : Nat} (h : byte_at d i = .ok b) :
    i < d.length := by
  by_contra hn
  have : d[i]? = none := List.getElem?_eq_none (by omega)
  simp [byte_at, this] at h

theorem byte_at_ok_getElem {d : List Nat} {i b : Nat} (h : byte_at d i = .ok b) :
    d[i]? = some b := by
  unfold byte_at at h
  cases hg : d[i]? with
  | none => simp [hg] at h
  | some x => simp [hg] at h; simp [h]

theorem filterMap_getElem_nil {d : List Nat} {a : Nat} (h : d.length ≤ a) :
    ∀ n, (List.range' a n).filterMap (fun k => d[k]?) = [] := by
  intro n
  induction n generalizing a with
  | zero => simp
  | succ m ih =>
    have hnone : d[a]? = none := List.getElem?_eq_none h
    simp only [List.range'_succ, List.filterMap_cons, hnone]
    exact ih (by omega)

theorem pySlice_eq_drop_take (d : List Nat) (a n : Nat) :
    (List.range' a n).filterMap (fun k => d[k]?) = (d.drop a).take n := by
  induction n generalizing a with
  | zero => simp
  | succ m ih =>
    by_cases ha : a < d.length
    · have hget : d[a]? = some d[a] := List.getElem?_eq_getElem ha
      rw [List.range'_succ, List.filterMap_cons, hget,
        List.drop_eq_getElem_cons ha, List.take_succ_cons, ih (a + 1)]
    · have h1 : d.length ≤ a := by omega
      rw [filterMap_getElem_nil h1, List.drop_eq_nil_of_le h1, List.take_nil]

theorem pySlice_def (d : List Nat) (a b : Nat) :
    pySlice d a b = (d.drop a).take (b - a) := by
  unfold pySlice
  exact pySlice_eq_drop_take d a (b - a)

/-! ### Claim C6: the text decoder -/

theorem tryEncodings_ok_no_control {es : List (List Nat → Option (List Char))}
    {bs : List Nat} {s : List Char} (h : tryEncodings es bs = .ok s) :
    contains_control_characters s = false := by
  induction es with
  | nil => simp [tryEncodings] at h
  | cons e rest ih =>
    unfold tryEncodings at h
    cases he : e bs with
    | none => rw [he] at h; exact ih h
    | some s0 =>
      rw [he] at h
      by_cases hc : contains_control_characters (collapseWs s0) = true
      · simp only [hc, if_true] at h
        exact ih h
      · simp only [Bool.not_eq_true] at hc
        simp only [hc, Bool.false_eq_true, if_false, Except.ok.injEq] at h
        rw [← h]
        exact hc

theorem tryEncodings_error {es : List (List Nat → Option (List Char))}
    {bs : List Nat} {e : Err} (h : tryEncodings es bs = .error e) :
    e = Err.undecidableEncoding := by
  induction es with
  | nil =>
    simp only [tryEncodings, Except.error.injEq] at h
    exact h.symm
  | cons f rest ih =>
    unfold tryEncodings at h
    cases hf : f bs with
    | none => rw [hf] at h; exact ih h
    | some s0 =>
      rw [hf] at h
      by_cases hc : contains_control_characters (collapseWs s0) = true
      · simp only [hc, if_true] at h; exact ih h
      · simp only [Bool.not_eq_true] at hc
        simp [hc] at h

/-- The byte span of the spec's worked example
`b"Unwis\x02e\x01?\x01\x01 (9)"`. -/
def unwiseBytes : List Nat :=
  [0x55, 0x6e, 0x77, 0x69, 0x73, 0x02, 0x65, 0x01, 0x3f, 0x01, 0x01, 0x20, 0x28, 0x39, 0x29]

/-- C6: the text decoder strips the style bytes 0x01/0x02/0x03, probes
UTF-8, Latin-1 and Windows-1252 in that fixed order, collapses whitespace
runs to a single space, and returns the first candidate free of Unicode
control characters; the example span decodes to `"Unwise? (9)"`, and any
returned string contains no control characters. -/
theorem decode_bytes_spec :
    (∀ bs, decode_bytes bs =
      tryEncodings [utf8Decode, latin1Decode, cp1252Decode]
        (bs.filter (fun b => !(b == 1 || b == 2 || b == 3)))) ∧
    decode_bytes unwiseBytes = .ok "Unwise? (9)".toList ∧
    ∀ bs s, decode_bytes bs = .ok s → contains_control_characters s = false := by
  refine ⟨fun bs => rfl, by decide, ?_⟩
  intro bs s h
  exact tryEncodings_ok_no_control h

/-! ### Claim C10: truncated length-prefixed reads -/

/-- C10: when the declared length runs past the end of the buffer, the span
is silently truncated to the remaining bytes, the truncated span is decoded,
and the returned position is still `i + 1 + n`; no out-of-range error is
possible (the only possible failure is the encoding-detection one). -/
theorem read_string_truncates (d : List Nat) (i n : Nat)
    (hb : byte_at d i = .ok n) (hover : d.length < i + 1 + n) :
    read_string d i = (decode_bytes (d.drop (i + 1))).map (fun s => (s, i + 1 + n)) ∧
    ∀ e, read_string d i = .error e → e = Err.undecidableEncoding := by
  have hslice : pySlice d (i + 1) (i + n + 1) = d.drop (i + 1) := by
    rw [pySlice_def]
    have hlen : (d.drop (i + 1)).length ≤ i + n + 1 - (i + 1) := by
      rw [List.length_drop]
      omega
    exact List.take_of_length_le hlen
  have hadd : i + n + 1 = i + 1 + n := by omega
  have hmain : read_string d i =
      (decode_bytes (d.drop (i + 1))).map (fun s => (s, i + 1 + n)) := by
    unfold read_string
    rw [hb]
    dsimp only
    rw [hslice]
    cases hd : decode_bytes (d.drop (i + 1)) with
    | ok s => rw [hadd]; rfl
    | error e => rfl
  refine ⟨hmain, ?_⟩
  intro e he
  rw [hmain] at he
  cases hd : decode_bytes (d.drop (i + 1)) with
  | ok s => rw [hd] at he; simp [Except.map] at he
  | error e' =>
    rw [hd] at he
    simp only [Except.map, Except.error.injEq] at he
    exact he ▸ tryEncodings_error hd

/-- Witness for C10 at the concrete buffer `[2, 65]`, position 0: the
declared length 2 exceeds the single remaining byte. -/
theorem read_string_truncates_witness :
    read_string [2, 65] 0 = (decode_bytes ([2, 65].drop (0 + 1))).map (fun s => (s, 0 + 1 + 2)) :=
  (read_string_truncates [2, 65] 0 2 rfl (by decide)).1

/-! ### The grid model (`commonccj.py`) -/

/-- `Cell` from `commonccj.py`: a light square; `'+'` is the unknown-letter
sentinel the constructor installs. -/
structure Cell where
  letter : Char
  row : Nat
  col : Nat
deriving Repr, DecidableEq

/-- One value of the `Grid.clue_numbers` dictionary: assigned coordinates plus
whether an across and/or a down entry starts at the numbered cell. -/
structure ClueNumEntry where
  x : Nat
  y : Nat
  across : Bool
  down : Bool
deriving Repr, DecidableEq

/-- `Grid` from `commonccj.py`: absent cells are blocked squares. -/
structure Grid where
  width : Nat
  height : Nat
  cells : List (List (Option Cell))
  clue_numbers : List (Nat × ClueNumEntry)
deriving Repr, DecidableEq

/-- `self.cells[y][x]` (out-of-range indices read as blocked; the Python
class invariant keeps all accesses in range). -/
def cellAt (g : Grid) (y x : Nat) : Option Cell :=
  (g.cells.getD y []).getD x none

def cellPresent (g : Grid) (y x : Nat) : Bool :=
  (cellAt g y x).isSome

/-- `cell_left` of `Grid.set_numbers`: set only when `x >= 1`. -/
def cellLeft (g : Grid) (y x : Nat) : Bool :=
  if 1 ≤ x then cellPresent g y (x - 1) else false

/-- `cell_right` of `Grid.set_numbers`: set only when `x < width - 1`. -/
def cellRight (g : Grid) (y x : Nat) : Bool :=
  if x < g.width - 1 then cellPresent g y (x + 1) else false

/-- `cell_above` of `Grid.set_numbers`: set only when `y >= 1`. -/
def cellAbove (g : Grid) (y x : Nat) : Bool :=
  if 1 ≤ y then cellPresent g (y - 1) x else false

/-- `cell_below` of `Grid.set_numbers`: set only when `y < height - 1`. -/
def cellBelow (g : Grid) (y x : Nat) : Bool :=
  if y < g.height - 1 then cellPresent g (y + 1) x else false

/-- `cell_right and not cell_left`: this cell starts an across entry. -/
def startsAcross (g : Grid) (y x : Nat) : Bool :=
  cellRight g y x && !cellLeft g y x

/-- `cell_below and not cell_above`: this cell starts a down entry. -/
def startsDown (g : Grid) (y x : Nat) : Bool :=
  cellBelow g y x && !cellAbove g y x

/-- The row-major scan order of `set_numbers`'s nested loops. -/
def scanCoords (g : Grid) : List (Nat × Nat) :=
  (List.range g.height).flatMap (fun y => (List.range g.width).map (fun x => (y, x)))

/-- One iteration of the `set_numbers` loop body: a present cell satisfying
the start-of-across-or-down predicate is appended with the running number,
which is then incremented. -/
def set_numbers_step (g : Grid) (acc : List (Nat × ClueNumEntry) × Nat)
    (yx : Nat × Nat) : List (Nat × ClueNumEntry) × Nat :=
  let y := yx.1
  let x := yx.2
  if cellPresent g y x then
    let a := startsAcross g y x
    let d := startsDown g y x
    if a || d then (acc.1 ++ [(acc.2, ⟨x, y, a, d⟩)], acc.2 + 1)
    else acc
  else acc

/-- `Grid.set_numbers` from `commonccj.py`. -/
def set_numbers (g : Grid) : Grid :=
  { g with clue_numbers := ((scanCoords g).foldl (set_numbers_step g) ([], 1)).1 }

/-- Per-coordinate specification of one numbering decision. -/
def assignEntry (g : Grid) (yx : Nat × Nat) : Option ClueNumEntry :=
  if cellPresent g yx.1 yx.2 && (startsAcross g yx.1 yx.2 || startsDown g yx.1 yx.2) then
    some ⟨yx.2, yx.1, startsAcross g yx.1 yx.2, startsDown g yx.1 yx.2⟩
  else none

/-- Pair a list of entries with consecutive numbers starting at `n`. -/
def withNumbers (n : Nat) : List ClueNumEntry → List (Nat × ClueNumEntry)
  | [] => []
  | c :: cs => (n, c) :: withNumbers (n + 1) cs

/-- The cells that receive numbers, in scan order. -/
def qualifiedCells (g : Grid) : List ClueNumEntry :=
  (scanCoords g).filterMap (assignEntry g)

theorem set_numbers_foldl (g : Grid) (l : List (Nat × Nat)) :
    ∀ (acc : List (Nat × ClueNumEntry)) (n : Nat),
      l.foldl (set_numbers_step g) (acc, n) =
        (acc ++ withNumbers n (l.filterMap (assignEntry g)),
          n + (l.filterMap (assignEntry g)).length) := by
  induction l with
  | nil => intro acc n; simp [withNumbers]
  | cons p t ih =>
    intro acc n
    obtain ⟨y, x⟩ := p
    rw [List.foldl_cons, List.filterMap_cons]
    by_cases hp : cellPresent g y x = true
    · by_cases hs : (startsAcross g y x || startsDown g y x) = true
      · have hstep : set_numbers_step g (acc, n) (y, x) =
            (acc ++ [(n, ⟨x, y, startsAcross g y x, startsDown g y x⟩)], n + 1) := by
          simp [set_numbers_step, hp, hs]
        have hassign : assignEntry g (y, x) =
            some ⟨x, y, startsAcross g y x, startsDown g y x⟩ := by
          simp [assignEntry, hp, hs]
        rw [hstep, ih, hassign]
        simp [withNumbers, List.append_assoc]
        omega
      · have hstep : set_numbers_step g (acc, n) (y, x) = (acc, n) := by
          simp [set_numbers_step, hp, hs]
        have hassign : assignEntry g (y, x) = none := by
          simp [assignEntry, hp, hs]
        rw [hstep, ih, hassign]
    · have hstep : set_numbers_step g (acc, n) (y, x) = (acc, n) := by
        simp [set_numbers_step, hp]
      have hassign : assignEntry g (y, x) = none := by
        simp [assignEntry, hp]
      rw [hstep, ih, hassign]

theorem set_numbers_eq (g : Grid) :
    (set_numbers g).clue_numbers = withNumbers 1 (qualifiedCells g) := by
  unfold set_numbers qualifiedCells
  rw [set_numbers_foldl]
  simp

theorem mem_withNumbers {l : List ClueNumEntry} :
    ∀ {n m : Nat} {c : ClueNumEntry},
      (m, c) ∈ withNumbers n l ↔ ∃ k, k < l.length ∧ m = n + k ∧ l[k]? = some c := by
  induction l with
  | nil => intro n m c; simp [withNumbers]
  | cons h t ih =>
    intro n m c
    simp only [withNumbers, List.mem_cons, ih, Prod.mk.injEq]
    constructor
    · rintro (⟨hm, hc⟩ | ⟨k, hk, hm, hg⟩)
      · exact ⟨0, by simp, by omega, by simp [hc]⟩
      · exact ⟨k + 1, by simpa using hk, by omega, by simpa using hg⟩
    · rintro ⟨k, hk, hm, hg⟩
      cases k with
      | zero => left; simp at hg; exact ⟨by omega, hg.symm⟩
      | succ k' =>
        right
        exact ⟨k', by simpa using hk, by omega, by simpa using hg⟩

theorem withNumbers_map_fst (l : List ClueNumEntry) :
    ∀ n, (withNumbers n l).map Prod.fst = List.range' n l.length := by
  induction l with
  | nil => intro n; simp [withNumbers]
  | cons h t ih => intro n; simp [withNumbers, List.range'_succ, ih]

theorem mem_scanCoords {g : Grid} {y x : Nat} :
    (y, x) ∈ scanCoords g ↔ y < g.height ∧ x < g.width := by
  simp only [scanCoords, List.mem_flatMap, List.mem_map, List.mem_range]
  constructor
  · rintro ⟨y', hy', x', hx', heq⟩
    obtain ⟨h1, h2⟩ := Prod.mk.injEq .. ▸ heq
    exact ⟨h1 ▸ hy', h2 ▸ hx'⟩
  · rintro ⟨hy, hx⟩
    exact ⟨y, hy, x, hx, rfl⟩

theorem assignEntry_pos {g : Grid} {y x : Nat} {e : ClueNumEntry}
    (h : assignEntry g (y, x) = some e) : e.y = y ∧ e.x = x := by
  unfold assignEntry at h
  by_cases hc : (cellPresent g y x && (startsAcross g y x || startsDown g y x)) = true
  · simp only [hc, if_true, Option.some.injEq] at h
    rw [← h]
    exact ⟨rfl, rfl⟩
  · simp [hc] at h

theorem qualifiedCells_pos_mem (g : Grid) :
    ∀ (l : List (Nat × Nat)),
      (∀ e ∈ l.filterMap (assignEntry g), (e.y, e.x) ∈ l) := by
  intro l
  induction l with
  | nil => simp
  | cons p t ih =>
    obtain ⟨y, x⟩ := p
    intro e he
    rw [List.filterMap_cons] at he
    cases ha : assignEntry g (y, x) with
    | none =>
      rw [ha] at he
      exact List.mem_cons_of_mem _ (ih e he)
    | some e' =>
      rw [ha] at he
      rcases List.mem_cons.mp he with h | h
      · obtain ⟨h1, h2⟩ := assignEntry_pos (h ▸ ha)
        rw [h1, h2]
        exact List.mem_cons_self _ _
      · exact List.mem_cons_of_mem _ (ih e h)

theorem qualifiedCells_pos_nodup (g : Grid) :
    ∀ (l : List (Nat × Nat)), l.Nodup →
      ((l.filterMap (assignEntry g)).map (fun e => (e.y, e.x))).Nodup := by
  intro l
  induction l with
  | nil => simp
  | cons p t ih =>
    obtain ⟨y, x⟩ := p
    intro hnd
    rw [List.nodup_cons] at hnd
    rw [List.filterMap_cons]
    cases ha : assignEntry g (y, x) with
    | none => exact ih hnd.2
    | some e =>
      rw [List.map_cons, List.nodup_cons]
      refine ⟨?_, ih hnd.2⟩
      intro hmem
      obtain ⟨e', he', hpe⟩ := List.mem_map.mp hmem
      obtain ⟨h1, h2⟩ := assignEntry_pos ha
      have : (e'.y, e'.x) ∈ t := qualifiedCells_pos_mem g t e' he'
      have hpos : (e'.y, e'.x) = (y, x) := by
        rw [hpe, h1, h2]
      exact hnd.1 (hpos ▸ this)

theorem scanCoords_nodup (g : Grid) : (scanCoords g).Nodup := by
  unfold scanCoords
  rw [List.nodup_flatMap]
  constructor
  · intro y _
    refine (List.nodup_range _).map ?_
    intro a b hab
    exact (Prod.mk.injEq y a y b ▸ hab).2
  · refine List.Pairwise.imp ?_ (List.nodup_range g.height)
    intro a b hab
    rw [Function.onFun, List.disjoint_left]
    intro p hpa hpb
    obtain ⟨x1, _, h1⟩ := List.mem_map.mp hpa
    obtain ⟨x2, _, h2⟩ := List.mem_map.mp hpb
    have : a = b := (Prod.mk.injEq a x1 b x2 ▸ (h1.trans h2.symm)).1
    exact absurd this hab

theorem withNumbers_length (l : List ClueNumEntry) :
    ∀ n, (withNumbers n l).length = l.length := by
  induction l with
  | nil => intro n; rfl
  | cons h t ih => intro n; simp [withNumbers, ih]

theorem mem_qualifiedCells {g : Grid} {e : ClueNumEntry} :
    e ∈ qualifiedCells g ↔
      (e.y < g.height ∧ e.x < g.width ∧ cellPresent g e.y e.x = true ∧
        (startsAcross g e.y e.x = true ∨ startsDown g e.y e.x = true) ∧
        e.across = startsAcross g e.y e.x ∧ e.down = startsDown g e.y e.x) := by
  unfold qualifiedCells
  rw [List.mem_filterMap]
  constructor
  · rintro ⟨⟨y, x⟩, hmem, hassign⟩
    obtain ⟨hy, hx⟩ := assignEntry_pos hassign
    subst hy; subst hx
    unfold assignEntry at hassign
    by_cases hc : (cellPresent g e.y e.x && (startsAcross g e.y e.x || startsDown g e.y e.x)) = true
    · simp only [hc, if_true, Option.some.injEq] at hassign
      obtain ⟨hcp, hsd⟩ := Bool.and_eq_true_iff.mp hc
      obtain ⟨hb1, hb2⟩ := mem_scanCoords.mp hmem
      refine ⟨hb1, hb2, hcp, Bool.or_eq_true_iff.mp hsd, ?_, ?_⟩
      · rw [← hassign]
      · rw [← hassign]
    · simp [hc] at hassign
  · rintro ⟨hy, hx, hcp, hsd, hacross, hdown⟩
    refine ⟨(e.y, e.x), mem_scanCoords.mpr ⟨hy, hx⟩, ?_⟩
    unfold assignEntry
    have hc : (cellPresent g e.y e.x && (startsAcross g e.y e.x || startsDown g e.y e.x)) = true := by
      rw [Bool.and_eq_true_iff, Bool.or_eq_true_iff]
      exact ⟨hcp, hsd⟩
    simp only [hc, if_true, Option.some.injEq]
    cases e
    simp only at hacross hdown ⊢
    rw [hacross, hdown]

/-- C3: for every grid layout, `set_numbers` assigns a number to a cell iff
the cell is present and starts an across or a down entry (per the
left/right/above/below predicates of the code); numbers are assigned in
row-major scan order starting at 1 and incrementing by one per qualifying
cell (so they are strictly increasing in scan order), every numbered entry
records exactly which directions start there, and each cell receives at most
one number (shared when both directions start there). -/
theorem grid_numbering_spec (g : Grid) :
    ((set_numbers g).clue_numbers.map Prod.fst =
        List.range' 1 (set_numbers g).clue_numbers.length) ∧
    List.Pairwise (· < ·) ((set_numbers g).clue_numbers.map Prod.fst) ∧
    (∀ y x, (∃ n e, (n, e) ∈ (set_numbers g).clue_numbers ∧ e.y = y ∧ e.x = x) ↔
      (y < g.height ∧ x < g.width ∧ cellPresent g y x = true ∧
        (startsAcross g y x = true ∨ startsDown g y x = true))) ∧
    (∀ n e, (n, e) ∈ (set_numbers g).clue_numbers →
      e.across = startsAcross g e.y e.x ∧ e.down = startsDown g e.y e.x) ∧
    (∀ n₁ n₂ e₁ e₂, (n₁, e₁) ∈ (set_numbers g).clue_numbers →
      (n₂, e₂) ∈ (set_numbers g).clue_numbers → e₁.y = e₂.y → e₁.x = e₂.x →
      n₁ = n₂ ∧ e₁ = e₂) := by
  have hrepr := set_numbers_eq g
  have hmem : ∀ n e, (n, e) ∈ (set_numbers g).clue_numbers ↔
      ∃ k, k < (qualifiedCells g).length ∧ n = 1 + k ∧ (qualifiedCells g)[k]? = some e := by
    intro n e
    rw [hrepr]
    exact mem_withNumbers
  refine ⟨?_, ?_, ?_, ?_, ?_⟩
  · rw [hrepr, withNumbers_map_fst, withNumbers_length]
  · rw [hrepr, withNumbers_map_fst]
    exact List.pairwise_lt_range' ..
  · intro y x
    constructor
    · rintro ⟨n, e, hin, hy, hx⟩
      obtain ⟨k, _, _, hget⟩ := (hmem n e).mp hin
      have he := mem_qualifiedCells.mp (List.getElem?_mem hget)
      rw [hy, hx] at he
      exact ⟨he.1, he.2.1, he.2.2.1, he.2.2.2.1⟩
    · rintro ⟨hy, hx, hcp, hsd⟩
      have hin : (⟨x, y, startsAcross g y x, startsDown g y x⟩ : ClueNumEntry) ∈
          qualifiedCells g := by
        rw [mem_qualifiedCells]
        exact ⟨hy, hx, hcp, hsd, rfl, rfl⟩
      obtain ⟨k, hget⟩ := List.mem_iff_getElem?.mp hin
      have hklt : k < (qualifiedCells g).length := by
        obtain ⟨hlt, _⟩ := List.getElem?_eq_some_iff.mp hget
        exact hlt
      exact ⟨1 + k, _, (hmem _ _).mpr ⟨k, hklt, rfl, hget⟩, rfl, rfl⟩
  · intro n e hin
    obtain ⟨k, _, _, hget⟩ := (hmem n e).mp hin
    have he := mem_qualifiedCells.mp (List.getElem?_mem hget)
    exact ⟨he.2.2.2.2.1, he.2.2.2.2.2⟩
  · intro n₁ n₂ e₁ e₂ h1 h2 hy hx
    obtain ⟨k₁, hk₁, hn₁, hget₁⟩ := (hmem n₁ e₁).mp h1
    obtain ⟨k₂, hk₂, hn₂, hget₂⟩ := (hmem n₂ e₂).mp h2
    have hnd := qualifiedCells_pos_nodup g (scanCoords g) (scanCoords_nodup g)
    obtain ⟨hlt₁, hge₁⟩ := List.getElem?_eq_some_iff.mp hget₁
    obtain ⟨hlt₂, hge₂⟩ := List.getElem?_eq_some_iff.mp hget₂
    have hmlt₁ : k₁ < ((qualifiedCells g).map (fun e => (e.y, e.x))).length := by
      rw [List.length_map]; exact hlt₁
    have hmlt₂ : k₂ < ((qualifiedCells g).map (fun e => (e.y, e.x))).length := by
      rw [List.length_map]; exact hlt₂
    have hme : ((qualifiedCells g).map (fun e => (e.y, e.x)))[k₁] =
        ((qualifiedCells g).map (fun e => (e.y, e.x)))[k₂] := by
      rw [List.getElem_map, List.getElem_map, hge₁, hge₂, hy, hx]
    have hk : k₁ = k₂ := (List.Nodup.getElem_inj_iff hnd).mp hme
    subst hk
    refine ⟨by omega, ?_⟩
    rw [← hge₁, ← hge₂]

/-! ### Clue-number token resolution (`clue_number_string_to_duple`) -/

/-- Dictionary lookup in `Grid.clue_numbers`. -/
def lookupClueNumber (g : Grid) (n : Nat) : Option ClueNumEntry :=
  (g.clue_numbers.find? (fun p => p.1 == n)).map Prod.snd

/-- `Grid.clue_directions` from `commonccj.py`: `['A']`, `['D']`, `['A', 'D']`
or `[]` according to the stored flags. -/
def clue_directions (g : Grid) (n : Nat) : List Char :=
  match lookupClueNumber g n with
  | none => []
  | some e => (if e.across then ['A'] else []) ++ (if e.down then ['D'] else [])

def isAsciiDigit (c : Char) : Bool :=
  decide ('0' ≤ c ∧ c ≤ '9')

/-- `int(group, 10)` on a run of decimal digit characters. -/
def natOfDigits (ds : List Char) : Nat :=
  ds.foldl (fun a c => a * 10 + (c.toNat - 48)) 0

/-- `clue_number_string_to_duple` from `commonccj.py`.  The regex
`(?ims)(\d+) *(A|D)?` is applied with `re.search`, whose leftmost-match
semantics make group 1 the maximal digit run starting at the first digit of
the token, and group 2 the first character after the following run of
spaces when it is `A`/`D` (case-insensitively); no digit anywhere means no
match.  (`\d` is modelled as the ASCII digits, the only ones appearing in
CCJ clue labels.)  The ambiguous two-direction case falls back on the
enclosing section's direction, surfacing only a diagnostic warning. -/
def clue_number_string_to_duple (in_across : Bool) (tok : List Char) (g : Grid) :
    Except Err (Nat × Bool) :=
  match tok.dropWhile (fun c => !isAsciiDigit c) with
  | [] => .error .clueNumberParse
  | rest =>
    let ds := rest.takeWhile isAsciiDigit
    let afterSpaces := (rest.dropWhile isAsciiDigit).dropWhile (fun c => c == ' ')
    let letter : Option Char :=
      match afterSpaces with
      | c :: _ => if c = 'A' ∨ c = 'a' ∨ c = 'D' ∨ c = 'd' then some c else none
      | [] => none
    let n := natOfDigits ds
    match letter with
    | some c => .ok (n, c == 'A' || c == 'a')
    | none =>
      match clue_directions g n with
      | [] => .error .noSuchClueNumber
      | [dirc] => .ok (n, dirc == 'A')
      | _ => .ok (n, in_across)

theorem dropWhile_all_append {p : Char → Bool} :
    ∀ (l r : List Char), (∀ x ∈ l, p x = true) → (l ++ r).dropWhile p = r.dropWhile p := by
  intro l
  induction l with
  | nil => intro r _; rfl
  | cons c t ih =>
    intro r h
    have hc : p c = true := h c (List.mem_cons_self c t)
    rw [List.cons_append, List.dropWhile_cons_of_pos hc]
    exact ih r (fun x hx => h x (List.mem_cons_of_mem c hx))

theorem takeWhile_all_append {p : Char → Bool} :
    ∀ (l r : List Char), (∀ x ∈ l, p x = true) → (l ++ r).takeWhile p = l ++ r.takeWhile p := by
  intro l
  induction l with
  | nil => intro r _; rfl
  | cons c t ih =>
    intro r h
    have hc : p c = true := h c (List.mem_cons_self c t)
    rw [List.cons_append, List.takeWhile_cons_of_pos hc, ih r
      (fun x hx => h x (List.mem_cons_of_mem c hx)), List.cons_append]

theorem takeWhile_all {p : Char → Bool} (l : List Char) (h : ∀ x ∈ l, p x = true) :
    l.takeWhile p = l := by
  have := takeWhile_all_append l [] h
  simpa using this

theorem dropWhile_all {p : Char → Bool} (l : List Char) (h : ∀ x ∈ l, p x = true) :
    l.dropWhile p = [] := by
  have := dropWhile_all_append l [] h
  simpa using this

theorem duple_head_digit (in_across : Bool) (g : Grid) (tok : List Char) (d : Char)
    (r : List Char) (h : tok.dropWhile (fun c => !isAsciiDigit c) = d :: r) :
    clue_number_string_to_duple in_across tok g =
      (let rest := d :: r
       let ds := rest.takeWhile isAsciiDigit
       let afterSpaces := (rest.dropWhile isAsciiDigit).dropWhile (fun c => c == ' ')
       let letter : Option Char :=
         match afterSpaces with
         | c :: _ => if c = 'A' ∨ c = 'a' ∨ c = 'D' ∨ c = 'd' then some c else none
         | [] => none
       let n := natOfDigits ds
       match letter with
       | some c => .ok (n, c == 'A' || c == 'a')
       | none =>
         match clue_directions g n with
         | [] => .error .noSuchClueNumber
         | [dirc] => .ok (n, dirc == 'A')
         | _ => .ok (n, in_across)) := by
  unfold clue_number_string_to_duple
  rw [h]

theorem duple_no_digit (in_across : Bool) (g : Grid) (tok : List Char)
    (h : tok.dropWhile (fun c => !isAsciiDigit c) = []) :
    clue_number_string_to_duple in_across tok g = .error .clueNumberParse := by
  unfold clue_number_string_to_duple
  rw [h]

/-- Explicit-letter case of the token resolver. -/
theorem duple_digits_letter (g : Grid) (ia : Bool) (ds : List Char) (c : Char)
    (hne : ds ≠ []) (hds : ∀ x ∈ ds, isAsciiDigit x = true)
    (hc : c = 'A' ∨ c = 'a' ∨ c = 'D' ∨ c = 'd') :
    clue_number_string_to_duple ia (ds ++ [c]) g = .ok (natOfDigits ds, c == 'A' || c == 'a') := by
  obtain ⟨d, t, rfl⟩ : ∃ d t, ds = d :: t := by
    cases ds with
    | nil => exact absurd rfl hne
    | cons d t => exact ⟨d, t, rfl⟩
  have hd : isAsciiDigit d = true := hds d (List.mem_cons_self d t)
  have hcd : isAsciiDigit c = false := by
    rcases hc with rfl | rfl | rfl | rfl <;> decide
  have hcsp : (c == ' ') = false := by
    rcases hc with rfl | rfl | rfl | rfl <;> decide
  have hdrop : ((d :: t) ++ [c]).dropWhile (fun x => !isAsciiDigit x) = d :: (t ++ [c]) := by
    rw [List.cons_append]
    exact List.dropWhile_cons_of_neg (by simp [hd])
  rw [duple_head_digit _ _ _ _ _ hdrop]
  have htw : (d :: (t ++ [c])).takeWhile isAsciiDigit = d :: t := by
    rw [← List.cons_append, takeWhile_all_append _ _ hds,
      List.takeWhile_cons_of_neg (by simp [hcd]), List.append_nil]
  have hdw : (d :: (t ++ [c])).dropWhile isAsciiDigit = [c] := by
    rw [← List.cons_append, dropWhile_all_append _ _ hds,
      List.dropWhile_cons_of_neg (by simp [hcd])]
  simp only [htw, hdw]
  rw [List.dropWhile_cons_of_neg (by simp [hcsp])]
  simp only [if_pos hc]
  
theorem duple_digits_cases (g : Grid) (ia : Bool) (ds : List Char)
    (hne : ds ≠ []) (hds : ∀ x ∈ ds, isAsciiDigit x = true) :
    (clue_directions g (natOfDigits ds) = [] →
      clue_number_string_to_duple ia ds g = .error .noSuchClueNumber) ∧
    (∀ dc, clue_directions g (natOfDigits ds) = [dc] →
      clue_number_string_to_duple ia ds g = .ok (natOfDigits ds, dc == 'A')) ∧
    (2 ≤ (clue_directions g (natOfDigits ds)).length →
      clue_number_string_to_duple ia ds g = .ok (natOfDigits ds, ia)) := by
  obtain ⟨d, t, rfl⟩ : ∃ d t, ds = d :: t := by
    cases ds with
    | nil => exact absurd rfl hne
    | cons d t => exact ⟨d, t, rfl⟩
  have hd : isAsciiDigit d = true := hds d (List.mem_cons_self d t)
  have hdrop : (d :: t).dropWhile (fun x => !isAsciiDigit x) = d :: t :=
    List.dropWhile_cons_of_neg (by simp [hd])
  have htw : (d :: t).takeWhile isAsciiDigit = d :: t := takeWhile_all _ hds
  have hdw : (d :: t).dropWhile isAsciiDigit = [] := dropWhile_all _ hds
  refine ⟨?_, ?_, ?_⟩
  · intro hdir
    rw [duple_head_digit _ _ _ _ _ hdrop]
    simp only [htw, hdw, List.dropWhile_nil, hdir]
  · intro dc hdir
    rw [duple_head_digit _ _ _ _ _ hdrop]
    simp only [htw, hdw, List.dropWhile_nil, hdir]
  · intro hdir
    rw [duple_head_digit _ _ _ _ _ hdrop]
    simp only [htw, hdw, List.dropWhile_nil]
    cases hl : clue_directions g (natOfDigits (d :: t)) with
    | nil => rw [hl] at hdir; simp at hdir
    | cons a l2 =>
      cases l2 with
      | nil => rw [hl] at hdir; simp at hdir
      | cons b rest => rfl

/-- C4: a token with an explicit trailing direction letter resolves to that
direction regardless of grid topology; without a letter, the grid's derived
directions decide: none is fatal (`NoSuchClueNumberError`), exactly one is
authoritative, two fall back on the enclosing section's own direction (the
warning printed in that case is a diagnostic and is not modelled). -/
theorem clue_number_resolution_spec :
    (∀ (g : Grid) (in_across : Bool) (ds : List Char) (c : Char),
      ds ≠ [] → (∀ x ∈ ds, isAsciiDigit x = true) →
      (c = 'A' ∨ c = 'a' ∨ c = 'D' ∨ c = 'd') →
      clue_number_string_to_duple in_across (ds ++ [c]) g =
        .ok (natOfDigits ds, c == 'A' || c == 'a')) ∧
    (∀ (g : Grid) (in_across : Bool) (ds : List Char),
      ds ≠ [] → (∀ x ∈ ds, isAsciiDigit x = true) →
      ((clue_directions g (natOfDigits ds) = [] →
        clue_number_string_to_duple in_across ds g = .error .noSuchClueNumber) ∧
      (∀ dc, clue_directions g (natOfDigits ds) = [dc] →
        clue_number_string_to_duple in_across ds g = .ok (natOfDigits ds, dc == 'A')) ∧
      (2 ≤ (clue_directions g (natOfDigits ds)).length →
        clue_number_string_to_duple in_across ds g = .ok (natOfDigits ds, in_across)))) :=
  ⟨fun g ia ds c hne hds hc => duple_digits_letter g ia ds c hne hds hc,
   fun g ia ds hne hds => duple_digits_cases g ia ds hne hds⟩

/-- A small grid whose numbering table has 12 as a down-only entry. -/
def gridTwelveDown : Grid :=
  ⟨1, 1, [[some ⟨'+', 0, 0⟩]], [(12, ⟨0, 0, false, true⟩)]⟩

/-- Witness for C4: in a grid where 12 is down-only, `"12"` resolves to
`(12, false)` and `"12A"` resolves to `(12, true)`. -/
theorem clue_number_resolution_spec_witness :
    clue_number_string_to_duple true ("12".toList ++ ['A']) gridTwelveDown =
        .ok (natOfDigits "12".toList, ('A' == 'A' || 'A' == 'a')) ∧
    clue_number_string_to_duple true "12".toList gridTwelveDown =
        .ok (natOfDigits "12".toList, ('D' == 'A')) := by
  constructor
  · exact clue_number_resolution_spec.1 gridTwelveDown true "12".toList 'A'
      (by decide) (by decide) (Or.inl rfl)
  · exact (clue_number_resolution_spec.2 gridTwelveDown true "12".toList
      (by decide) (by decide)).2.1 'D' (by decide)

/-- The spec's stated token pattern, from the spec's words: the whole token
is one or more digits optionally followed by a single trailing `A` or `D`
(case-insensitive).  Defined only to compare with the code's behaviour. -/
def spec_full_pattern (tok : List Char) : Bool :=
  let ds := tok.takeWhile isAsciiDigit
  let rest := tok.dropWhile isAsciiDigit
  !ds.isEmpty && (rest.isEmpty || rest == ['A'] || rest == ['a'] || rest == ['D'] || rest == ['d'])

/-- A grid whose numbering table has 1 as an across-only entry. -/
def gridOneAcross : Grid :=
  ⟨1, 1, [[some ⟨'+', 0, 0⟩]], [(1, ⟨0, 0, true, false⟩)]⟩

/-- C5 counterexample: the token `"1!"` does not match the spec's "digits
plus optional trailing direction letter" pattern, yet the resolver succeeds
(the code applies the regex with `re.search`, not a full match), so the
claimed `ClueNumberParseError` is not raised. -/
theorem clue_number_parse_error_counterexample :
    spec_full_pattern "1!".toList = false ∧
    clue_number_string_to_duple true "1!".toList gridOneAcross = .ok (1, true) := by
  constructor
  · decide
  · decide

/-- C5 amended: the resolver raises `ClueNumberParseError` exactly when the
token contains no digit at all (the unanchored `re.search` finds a match
whenever some digit occurs, wherever it sits in the token). -/
theorem clue_number_parse_error_iff (in_across : Bool) (tok : List Char) (g : Grid) :
    clue_number_string_to_duple in_across tok g = .error .clueNumberParse ↔
      (∀ c ∈ tok, isAsciiDigit c = false) := by
  constructor
  · intro h
    cases hdrop : tok.dropWhile (fun c => !isAsciiDigit c) with
    | nil =>
      intro c hc
      have := List.dropWhile_eq_nil_iff.mp hdrop c hc
      simpa using this
    | cons d r =>
      exfalso
      rw [duple_head_digit _ _ _ _ _ hdrop] at h
      simp only at h
      rcases hm : List.dropWhile (fun c => c == ' ')
          (List.dropWhile isAsciiDigit (d :: r)) with _ | ⟨c, tl⟩
      · rw [hm] at h
        simp only at h
        rcases hl : clue_directions g (natOfDigits ((d :: r).takeWhile isAsciiDigit)) with
          _ | ⟨a, _ | ⟨b, rest⟩⟩ <;> rw [hl] at h <;> simp at h
      · rw [hm] at h
        simp only at h
        by_cases hc : c = 'A' ∨ c = 'a' ∨ c = 'D' ∨ c = 'd'
        · rw [if_pos hc] at h
          simp at h
        · rw [if_neg hc] at h
          simp only at h
          rcases hl : clue_directions g (natOfDigits ((d :: r).takeWhile isAsciiDigit)) with
            _ | ⟨a, _ | ⟨b, rest⟩⟩ <;> rw [hl] at h <;> simp at h
  · intro h
    apply duple_no_digit
    rw [List.dropWhile_eq_nil_iff]
    intro c hc
    simp [h c hc]

/-- Witness for C5 (amended): the digit-free token `"abc"` raises the parse
error. -/
theorem clue_number_parse_error_iff_witness :
    clue_number_string_to_duple true "abc".toList gridOneAcross = .error .clueNumberParse :=
  (clue_number_parse_error_iff true "abc".toList gridOneAcross).mpr (by decide)

/-! ### Clue model and clue-list decoding (`ccj_parse.py`) -/

/-- `re.split(r'[,/]', s)`: split at every comma or slash (empty pieces kept). -/
def splitTokens : List Char → List (List Char)
  | [] => [[]]
  | c :: rest =>
    match splitTokens rest with
    | [] => [[c]]
    | h :: t => if c = ',' ∨ c = '/' then [] :: h :: t else (c :: h) :: t

/-- `ParsedClue` from `ccj_parse.py`; `start_coordinates` is `None` for the
synthesized placeholder clues. -/
structure ParsedClue where
  number_string : List Char
  text_including_enumeration : List Char
  start_coordinates : Option (List (Nat × Nat))
  across : Bool
  all_clue_numbers : List (Nat × Bool)
deriving Repr, DecidableEq

/-- The list comprehension inside `ParsedClue.set_number`, resolving the
split tokens left to right. -/
def resolveTokens (in_across : Bool) (g : Grid) : List (List Char) → Except Err (List (Nat × Bool))
  | [] => .ok []
  | t :: ts =>
    match clue_number_string_to_duple in_across t g with
    | .error e => .error e
    | .ok p =>
      match resolveTokens in_across g ts with
      | .error e => .error e
      | .ok ps => .ok (p :: ps)

/-- `ParsedClue.set_number`: split the label on commas/slashes and resolve
every token (the function also records `number_string`; callers here store
both fields directly). -/
def pcSetNumber (across : Bool) (s : List Char) (g : Grid) : Except Err (List (Nat × Bool)) :=
  resolveTokens across g (splitTokens s)

/-- Python-dict assignment `d[k] = v` on an insertion-ordered association
list: overwrite in place, else append. -/
def dictInsert (d : List (Nat × ParsedClue)) (k : Nat) (v : ParsedClue) :
    List (Nat × ParsedClue) :=
  if d.any (fun p => p.1 == k) then d.map (fun p => if p.1 == k then (k, v) else p)
  else d ++ [(k, v)]

/-- `ListOfClues` from `ccj_parse.py`. -/
structure ListOfClues where
  label : List Char
  across : Bool
  unknown_bytes : List Nat
  number_of_clues : Nat
  clue_dictionary : List (Nat × ParsedClue)
deriving Repr, DecidableEq

/-- `reduce_coordinate` from `ccj_parse.py`. -/
def reduce_coordinate (x : Nat) : Nat :=
  if 0x80 ≤ x then x - 0x80 else x

/-- The NUL-terminated coordinate-list loop of `read_clue_start_coordinates`.
Each iteration consumes two bytes, so `d.length + 1` fuel is never exhausted
on a successful run. -/
def readCoordsLoop (d : List Nat) (fuel : Nat) (i : Nat) (acc : List (Nat × Nat)) :
    Except Err (List (Nat × Nat) × Nat) :=
  match fuel with
  | 0 => .error .outOfFuel
  | fuel + 1 =>
    match byte_at d i with
    | .error e => .error e
    | .ok b =>
      if b = 0 then .ok (acc, i + 1)
      else
        match byte_at d (i + 1) with
        | .error e => .error e
        | .ok c =>
          readCoordsLoop d fuel (i + 2) (acc ++ [(reduce_coordinate b, reduce_coordinate c)])

/-- `read_clue_start_coordinates` from `ccj_parse.py`: a high first byte
starts a NUL-terminated list of pairs, otherwise exactly one pair. -/
def read_clue_start_coordinates (d : List Nat) (i : Nat) :
    Except Err (List (Nat × Nat) × Nat) :=
  match byte_at d i with
  | .error e => .error e
  | .ok b =>
    if 0x80 ≤ b then readCoordsLoop d (d.length + 1) i []
    else
      match byte_at d (i + 1) with
      | .error e => .error e
      | .ok c => .ok ([(reduce_coordinate b, reduce_coordinate c)], i + 2)

def toLowerChars (s : List Char) : List Char :=
  s.map Char.toLower

def listPrefix : List Char → List Char → Bool
  | [], _ => true
  | _ :: _, [] => false
  | a :: as, b :: bs => a == b && listPrefix as bs

def listInfix (needle : List Char) : List Char → Bool
  | [] => needle.isEmpty
  | c :: rest => listPrefix needle (c :: rest) || listInfix needle rest

/-- `re.search(r'(?ims)needle', hay)` for a lowercase ASCII literal needle:
case-insensitive substring test. -/
def containsCI (needle : List Char) (hay : List Char) : Bool :=
  listInfix needle (toLowerChars hay)

/-- One iteration body of the clue loop in `parse_list_of_clues`:
coordinates, number label (resolved against the grid), a mandatory NUL,
then the clue text.  The dictionary key is `all_clue_numbers[0][0]`; an
empty reference list would be a Python `IndexError` (same class as an
out-of-range read). -/
def parseOneClue (d : List Nat) (g : Grid) (across : Bool) (i : Nat) :
    Except Err (ParsedClue × Nat) :=
  match read_clue_start_coordinates d i with
  | .error e => .error e
  | .ok (coords, i1) =>
    match read_string d i1 with
    | .error e => .error e
    | .ok (numStr, i2) =>
      match pcSetNumber across numStr g with
      | .error e => .error e
      | .ok nums =>
        match byte_at d i2 with
        | .error e => .error e
        | .ok b =>
          if b ≠ 0 then .error .malformed
          else
            match read_string d (i2 + 1) with
            | .error e => .error e
            | .ok (text, i3) => .ok (⟨numStr, text, some coords, across, nums⟩, i3)

/-- The `while True:` clue loop of `parse_list_of_clues`.  The Python loop
increments `clues_found` and breaks once `clues_found >= number_of_clues`;
`m` here is the saturating countdown `number_of_clues - clues_found - 1`
(the number of iterations still to run after the current one), so the body
always runs at least once — the do-while — and `number_of_clues = 0` runs
it exactly once, just like `number_of_clues = 1`.  The last component of
the result counts the iterations performed (specification ghost state). -/
def clueLoop (d : List Nat) (g : Grid) (across : Bool) :
    Nat → Nat → List (Nat × ParsedClue) → Nat →
    Except Err (List (Nat × ParsedClue) × Nat × Nat)
  | m, i, dict, iters =>
    match parseOneClue d g across i with
    | .error e => .error e
    | .ok (clue, i') =>
      match clue.all_clue_numbers with
      | [] => .error .outOfRange
      | (n0, _) :: _ =>
        let dict' := dictInsert dict n0 clue
        match m with
        | 0 => .ok (dict', i', iters + 1)
        | m' + 1 => clueLoop d g across m' i' dict' (iters + 1)

/-- `parse_list_of_clues` from `ccj_parse.py`.  The final `Nat` of the
result is the ghost count of clue-loop iterations (for specification only;
the Python function returns the `ListOfClues` and the new position). -/
def parse_list_of_clues (d : List Nat) (i : Nat) (g : Grid) :
    Except Err (ListOfClues × Nat × Nat) :=
  match read_string d i with
  | .error e => .error e
  | .ok (label, i1) =>
    match
      (if containsCI "across".toList label then some true
       else if containsCI "down".toList label then some false
       else none) with
    | none => .error .unclassifiedClueSection
    | some across =>
      let unknown := pySlice d i1 (i1 + 3)
      match byte_at d (i1 + 3) with
      | .error e => .error e
      | .ok n =>
        match clueLoop d g across (n - 1) (i1 + 3 + 1) [] 0 with
        | .error e => .error e
        | .ok (dict, i3, iters) => .ok (⟨label, across, unknown, n, dict⟩, i3, iters)

/-! ### Claim C2: the clue loop is a do-while -/

theorem clueLoop_zero (d : List Nat) (g : Grid) (across : Bool) (i : Nat)
    (dict : List (Nat × ParsedClue)) (iters : Nat) (clue : ParsedClue) (i' n0 : Nat)
    (dir0 : Bool) (rest : List (Nat × Bool))
    (hp : parseOneClue d g across i = .ok (clue, i'))
    (hn : clue.all_clue_numbers = (n0, dir0) :: rest) :
    clueLoop d g across 0 i dict iters = .ok (dictInsert dict n0 clue, i', iters + 1) := by
  conv_lhs => unfold clueLoop
  rw [hp]
  dsimp only
  rw [hn]

theorem clueLoop_succ (d : List Nat) (g : Grid) (across : Bool) (m' i : Nat)
    (dict : List (Nat × ParsedClue)) (iters : Nat) (clue : ParsedClue) (i' n0 : Nat)
    (dir0 : Bool) (rest : List (Nat × Bool))
    (hp : parseOneClue d g across i = .ok (clue, i'))
    (hn : clue.all_clue_numbers = (n0, dir0) :: rest) :
    clueLoop d g across (m' + 1) i dict iters =
      clueLoop d g across m' i' (dictInsert dict n0 clue) (iters + 1) := by
  conv_lhs => unfold clueLoop
  rw [hp]
  dsimp only
  rw [hn]

theorem clueLoop_iters (d : List Nat) (g : Grid) (across : Bool) :
    ∀ (m i : Nat) (dict : List (Nat × ParsedClue)) (iters : Nat) dict' pos iters',
      clueLoop d g across m i dict iters = .ok (dict', pos, iters') →
      iters' = iters + m + 1 := by
  intro m
  induction m with
  | zero =>
    intro i dict iters dict' pos iters' h
    cases hp : parseOneClue d g across i with
    | error e => unfold clueLoop at h; rw [hp] at h; simp at h
    | ok ci =>
      obtain ⟨clue, i'⟩ := ci
      cases hn : clue.all_clue_numbers with
      | nil => unfold clueLoop at h; rw [hp] at h; dsimp only at h; rw [hn] at h; simp at h
      | cons p rest =>
        obtain ⟨n0, dir0⟩ := p
        rw [clueLoop_zero d g across i dict iters clue i' n0 dir0 rest hp hn] at h
        simp only [Except.ok.injEq, Prod.mk.injEq] at h
        omega
  | succ m' ih =>
    intro i dict iters dict' pos iters' h
    cases hp : parseOneClue d g across i with
    | error e => unfold clueLoop at h; rw [hp] at h; simp at h
    | ok ci =>
      obtain ⟨clue, i'⟩ := ci
      cases hn : clue.all_clue_numbers with
      | nil => unfold clueLoop at h; rw [hp] at h; dsimp only at h; rw [hn] at h; simp at h
      | cons p rest =>
        obtain ⟨n0, dir0⟩ := p
        rw [clueLoop_succ d g across m' i dict iters clue i' n0 dir0 rest hp hn] at h
        have := ih i' _ _ _ _ _ h
        omega

/-- C2 amended: for every buffer and start position on which the clue-list
decoder succeeds, the per-clue parse runs exactly `max 1 N` times, where `N`
is the declared clue count — `N` times when `N ≥ 1`, but once (not zero
times) when `N = 0`, because the loop is a do-while. -/
theorem clue_count_iterations (d : List Nat) (i : Nat) (g : Grid)
    (r : ListOfClues) (pos iters : Nat)
    (h : parse_list_of_clues d i g = .ok (r, pos, iters)) :
    iters = max 1 r.number_of_clues := by
  unfold parse_list_of_clues at h
  cases hs : read_string d i with
  | error e => rw [hs] at h; simp at h
  | ok li =>
    rw [hs] at h
    obtain ⟨label, i1⟩ := li
    simp only at h
    by_cases ha : containsCI "across".toList label = true
    · rw [if_pos ha] at h
      simp only at h
      cases hb : byte_at d (i1 + 3) with
      | error e => rw [hb] at h; simp at h
      | ok n =>
        rw [hb] at h
        simp only at h
        cases hl : clueLoop d g true (n - 1) (i1 + 3 + 1) [] 0 with
        | error e => rw [hl] at h; simp at h
        | ok dpi =>
          rw [hl] at h
          obtain ⟨dict, i3, iters0⟩ := dpi
          simp only [Except.ok.injEq, Prod.mk.injEq] at h
          have hit := clueLoop_iters d g true (n - 1) (i1 + 3 + 1) [] 0 dict i3 iters0 hl
          obtain ⟨hr, hpos, hiters⟩ := h
          rw [← hiters, hit, ← hr]
          simp only []
          omega
    · rw [if_neg ha] at h
      by_cases hd : containsCI "down".toList label = true
      · rw [if_pos hd] at h
        simp only at h
        cases hb : byte_at d (i1 + 3) with
        | error e => rw [hb] at h; simp at h
        | ok n =>
          rw [hb] at h
          simp only at h
          cases hl : clueLoop d g false (n - 1) (i1 + 3 + 1) [] 0 with
          | error e => rw [hl] at h; simp at h
          | ok dpi =>
            rw [hl] at h
            obtain ⟨dict, i3, iters0⟩ := dpi
            simp only [Except.ok.injEq, Prod.mk.injEq] at h
            have hit := clueLoop_iters d g false (n - 1) (i1 + 3 + 1) [] 0 dict i3 iters0 hl
            obtain ⟨hr, hpos, hiters⟩ := h
            rw [← hiters, hit, ← hr]
            simp only []
            omega
      · rw [if_neg hd] at h
        simp at h

/-- A clue-list section whose declared clue count byte is 0, followed by one
well-formed clue record: label "Across", three skipped bytes, count 0,
coordinates (1,1), number label "1", NUL, text "Test". -/
def zeroCountBuffer : List Nat :=
  [6, 0x41, 0x63, 0x72, 0x6f, 0x73, 0x73,
   0, 0, 0,
   0,
   1, 1,
   1, 0x31,
   0,
   4, 0x54, 0x65, 0x73, 0x74]

/-- C2 counterexample: with a declared clue count of zero, the clue-list
decoder still performs the per-clue parse once (the loop is a do-while),
not zero times as the claim states. -/
theorem clue_count_loop_counterexample :
    (parse_list_of_clues zeroCountBuffer 0 gridOneAcross).toOption.map
        (fun r => (r.1.number_of_clues, r.2.2)) = some (0, 1) := by
  decide

/-- The clue parsed from `zeroCountBuffer`. -/
def zeroCountClue : ParsedClue :=
  ⟨"1".toList, "Test".toList, some [(1, 1)], true, [(1, true)]⟩

/-- The `ListOfClues` decoded from `zeroCountBuffer`. -/
def zeroCountResult : ListOfClues :=
  ⟨"Across".toList, true, [0, 0, 0], 0, [(1, zeroCountClue)]⟩

/-- Witness for C2 (amended) at `zeroCountBuffer`: one iteration equals
`max 1 0`. -/
theorem clue_count_iterations_witness :
    (1 : Nat) = max 1 zeroCountResult.number_of_clues :=
  clue_count_iterations zeroCountBuffer 0 gridOneAcross zeroCountResult 21 1 (by decide)

/-- Witness for C6: the string returned on the example span carries no
control characters. -/
theorem decode_bytes_spec_witness :
    contains_control_characters "Unwise? (9)".toList = false :=
  decode_bytes_spec.2.2 unwiseBytes "Unwise? (9)".toList decode_bytes_spec.2.1

/-- The spec's 3×3 example layout: lights everywhere except the centre. -/
def donutGrid : Grid :=
  ⟨3, 3,
   [[some ⟨'+', 0, 0⟩, some ⟨'+', 0, 1⟩, some ⟨'+', 0, 2⟩],
    [some ⟨'+', 1, 0⟩, none, some ⟨'+', 1, 2⟩],
    [some ⟨'+', 2, 0⟩, some ⟨'+', 2, 1⟩, some ⟨'+', 2, 2⟩]], []⟩

/-- Witness for C3 on the 3×3 donut grid: cell (0,0) receives a number. -/
theorem grid_numbering_spec_witness :
    ∃ n e, (n, e) ∈ (set_numbers donutGrid).clue_numbers ∧ e.y = 0 ∧ e.x = 0 :=
  ((grid_numbering_spec donutGrid).2.2.1 0 0).mpr
    ⟨by decide, by decide, by decide, Or.inl (by decide)⟩

/-! ### The assembled puzzle and the PUZ-like encoder (`ccj_parse.py`) -/

/-- `ParsedCCJ` (the fields `write_to_puz_file` consumes). -/
structure ParsedCCJ where
  width : Nat
  height : Nat
  grid : Grid
  across_clues : ListOfClues
  down_clues : ListOfClues
  setter : Option (List Char)
  puzzle_number : Option (List Char)
  title : List Char
  author : List Char
  copyright_message : List Char
deriving Repr, DecidableEq

/-- `dict.values()`.  The packaged sources are Python 2 (`commonccj.py` uses
`raise Exception, msg`), where `values()` is a list snapshot, so mutating
the dictionary afterwards does not affect an iteration over it. -/
def dictValues (d : List (Nat × ParsedClue)) : List ParsedClue :=
  d.map Prod.snd

/-- One `(entry_n, entry_across)` step of the placeholder-synthesis loop in
`write_to_puz_file`: build the `"See <first>"` string, suffix the *entry's*
direction when it differs from the group being scanned, and insert a fake
clue into the direction's dictionary when the key is absent. -/
def synthOne (g : Grid) (groupAcross : Bool) (firstNum : Nat) (ref : Nat × Bool)
    (dicts : List (Nat × ParsedClue) × List (Nat × ParsedClue)) :
    Except Err (List (Nat × ParsedClue) × List (Nat × ParsedClue)) :=
  let entryN := ref.1
  let entryAcross := ref.2
  let clue_string := "See ".toList ++ Nat.toDigits 10 firstNum ++
    (if entryAcross ≠ groupAcross then
      (match entryAcross with
       | true => " across".toList
       | false => " down".toList)
     else [])
  let target :=
    match entryAcross with
    | true => dicts.1
    | false => dicts.2
  if target.any (fun p => p.1 == entryN) then .ok dicts
  else
    match pcSetNumber entryAcross (Nat.toDigits 10 entryN) g with
    | .error e => .error e
    | .ok nums =>
      let fake : ParsedClue := ⟨Nat.toDigits 10 entryN, clue_string, none, entryAcross, nums⟩
      let target' := dictInsert target entryN fake
      .ok (match entryAcross with
           | true => (target', dicts.2)
           | false => (dicts.1, target'))

/-- The inner `for entry_n, entry_across in clue.all_clue_numbers` loop. -/
def synthRefs (g : Grid) (groupAcross : Bool) (firstNum : Nat) :
    List (Nat × Bool) →
    List (Nat × ParsedClue) × List (Nat × ParsedClue) →
    Except Err (List (Nat × ParsedClue) × List (Nat × ParsedClue))
  | [], ds => .ok ds
  | r :: rs, ds =>
    match synthOne g groupAcross firstNum r ds with
    | .error e => .error e
    | .ok ds' => synthRefs g groupAcross firstNum rs ds'

/-- The `for clue in clue_dictionary.values()` loop (over a snapshot).
`all_clue_numbers[0]` on an empty reference list is a Python `IndexError`. -/
def synthClues (g : Grid) (groupAcross : Bool) :
    List ParsedClue →
    List (Nat × ParsedClue) × List (Nat × ParsedClue) →
    Except Err (List (Nat × ParsedClue) × List (Nat × ParsedClue))
  | [], ds => .ok ds
  | c :: cs, ds =>
    match c.all_clue_numbers with
    | [] => .error .outOfRange
    | (firstNum, _) :: _ =>
      match synthRefs g groupAcross firstNum c.all_clue_numbers ds with
      | .error e => .error e
      | .ok ds' => synthClues g groupAcross cs ds'

/-- Placeholder reconciliation over the deep-copied clue dictionaries: the
across group is scanned first, then the down group (whose snapshot already
contains anything the first pass inserted). -/
def reconcile (g : Grid) (acrossD downD : List (Nat × ParsedClue)) :
    Except Err (List (Nat × ParsedClue) × List (Nat × ParsedClue)) :=
  match synthClues g true (dictValues acrossD) (acrossD, downD) with
  | .error e => .error e
  | .ok ds1 =>
    match synthClues g false (dictValues ds1.2) ds1 with
    | .error e => .error e
    | .ok ds2 => .ok ds2

/-- `sorted(self.clue_dictionary.keys())`. -/
def sortedKeys (d : List (Nat × ParsedClue)) : List Nat :=
  List.insertionSort (fun a b => a ≤ b) (d.map Prod.fst)

def lookupClue (d : List (Nat × ParsedClue)) (k : Nat) : Option ParsedClue :=
  (d.find? (fun p => p.1 == k)).map Prod.snd

/-- `ListOfClues.ordered_list_of_clues`: values in ascending key order. -/
def ordered_list_of_clues (d : List (Nat × ParsedClue)) : List ParsedClue :=
  (sortedKeys d).filterMap (lookupClue d)

/-- `keyfunc_clues` from `ccj_parse.py`: `(first entry number, 0 for across
/ 1 for down)`.  `headD` models `all_clue_numbers[0]`, which is only ever
evaluated on clues with a nonempty reference list. -/
def keyfunc_clues (c : ParsedClue) : Nat × Nat :=
  ((c.all_clue_numbers.headD (0, true)).1, if c.across then 0 else 1)

/-- The (lexicographic) Python tuple order on `keyfunc_clues` keys;
`list.sort(key=...)` is a stable sort by this order. -/
def keyLe (c₁ c₂ : ParsedClue) : Prop :=
  (keyfunc_clues c₁).1 < (keyfunc_clues c₂).1 ∨
    ((keyfunc_clues c₁).1 = (keyfunc_clues c₂).1 ∧
      (keyfunc_clues c₁).2 ≤ (keyfunc_clues c₂).2)

instance : DecidableRel keyLe := by
  intro a b
  unfold keyLe
  infer_instance

instance : IsTotal ParsedClue keyLe := by
  refine ⟨fun a b => ?_⟩
  unfold keyLe
  omega

instance : IsTrans ParsedClue keyLe := by
  refine ⟨fun a b c hab hbc => ?_⟩
  unfold keyLe at hab hbc ⊢
  omega

/-- UTF-8 encoding of one code point (`str.encode('UTF-8')`). -/
def encodeUtf8Char (c : Char) : List Nat :=
  let n := c.toNat
  if n < 0x80 then [n]
  else if n < 0x800 then [0xc0 + n / 0x40, 0x80 + n % 0x40]
  else if n < 0x10000 then [0xe0 + n / 0x1000, 0x80 + (n / 0x40) % 0x40, 0x80 + n % 0x40]
  else [0xf0 + n / 0x40000, 0x80 + (n / 0x1000) % 0x40, 0x80 + (n / 0x40) % 0x40, 0x80 + n % 0x40]

def encodeUtf8 (s : List Char) : List Nat :=
  s.flatMap encodeUtf8Char

/-- `re.sub(r'[\x00-\x1f]', '', t)`. -/
def stripLowControls (s : List Char) : List Char :=
  s.filter (fun c => !decide (c.toNat ≤ 0x1f))

/-- Worker for `re.sub(r' *\(', ' (', t)`: buffered spaces are replaced by a
single space when a `(` follows, flushed unchanged otherwise. -/
def tidyParenAux : List Char → List Char → List Char
  | pending, [] => pending.reverse
  | pending, c :: rest =>
    if c = ' ' then tidyParenAux (c :: pending) rest
    else if c = '(' then ' ' :: '(' :: tidyParenAux [] rest
    else pending.reverse ++ c :: tidyParenAux [] rest

def tidyParen (s : List Char) : List Char :=
  tidyParenAux [] s

/-- `ParsedClue.tidied_text_including_enumeration`. -/
def tidied_text_including_enumeration (c : ParsedClue) : List Char :=
  tidyParen (stripLowControls c.text_including_enumeration)

/-- `re.sub(r'/', ',', s).lower()` applied to a clue's raw number string. -/
def tidyNumberString (s : List Char) : List Char :=
  (s.map (fun c => if c = '/' then ',' else c)).map Char.toLower

/-- One output clue line: `"[<label>] "`, the tidied text, and a NUL. -/
def clueLine (c : ParsedClue) : List Nat :=
  encodeUtf8 ('[' :: (tidyNumberString c.number_string ++ "] ".toList)) ++
    encodeUtf8 (tidied_text_including_enumeration c) ++ [0]

/-- `struct.pack("<h", n)` for a nonnegative count. -/
def pack16le (n : Nat) : Except Err (List Nat) :=
  if n < 0x8000 then .ok [n % 256, n / 256] else .error .packOverflow

/-- One cell of the solution/player layers: `(ord(letter), ord('-'))` for a
light — a `bytearray` rejects values above 255 — and `('.', '.')` for a
block. -/
def gridBytesCell (oc : Option Cell) : Except Err (Nat × Nat) :=
  match oc with
  | some c => if c.letter.toNat < 256 then .ok (c.letter.toNat, 45) else .error .byteRange
  | none => .ok (46, 46)

/-- One row of the two layers (`x` running over `cols` columns from `x0`). -/
def gridBytesRow (g : Grid) (y : Nat) : Nat → Nat → Except Err (List Nat × List Nat)
  | _, 0 => .ok ([], [])
  | x0, cols + 1 =>
    match gridBytesCell (cellAt g y x0) with
    | .error e => .error e
    | .ok (s, p) =>
      match gridBytesRow g y (x0 + 1) cols with
      | .error e => .error e
      | .ok (ss, ps) => .ok (s :: ss, p :: ps)

/-- The full solution and player layers in row-major order (the Python code
preallocates `width*height` bytearrays and fills them at the running index
`i = y*width + x`, which is exactly row-major concatenation). -/
def gridBytesRows (g : Grid) (w : Nat) : Nat → Nat → Except Err (List Nat × List Nat)
  | _, 0 => .ok ([], [])
  | y0, rows + 1 =>
    match gridBytesRow g y0 0 w with
    | .error e => .error e
    | .ok (s, p) =>
      match gridBytesRows g w (y0 + 1) rows with
      | .error e => .error e
      | .ok (ss, ps) => .ok (s ++ ss, p ++ ps)

/-- The byte stream `write_to_puz_file` writes to the output file. -/
def writeBytes (p : ParsedCCJ) : Except Err (List Nat) :=
  match reconcile p.grid p.across_clues.clue_dictionary p.down_clues.clue_dictionary with
  | .error e => .error e
  | .ok (aDict, dDict) =>
    if p.width < 256 ∧ p.height < 256 then
      match pack16le (aDict.length + dDict.length) with
      | .error e => .error e
      | .ok countBytes =>
        match gridBytesRows p.grid p.width 0 p.height with
        | .error e => .error e
        | .ok (sol, player) =>
          let allClues := ordered_list_of_clues aDict ++ ordered_list_of_clues dDict
          let sorted := List.insertionSort keyLe allClues
          .ok (List.replicate 44 0 ++ [p.width, p.height] ++ countBytes ++
            List.replicate 4 0 ++ sol ++ player ++
            encodeUtf8 p.title ++ [0] ++ encodeUtf8 p.author ++ [0] ++
            encodeUtf8 p.copyright_message ++ [0] ++
            sorted.flatMap clueLine ++ [0])
    else .error .byteRange

/-- `ParsedCCJ.write_to_puz_file`, translated with explicit state passing:
the first component is the object after the call.  The Python method deep
copies the two clue lists before placeholder synthesis and never assigns to
`self`, so the object is returned unchanged. -/
def write_to_puz_file (p : ParsedCCJ) : ParsedCCJ × Except Err (List Nat) :=
  (p, writeBytes p)

/-! ### Claim C1: placeholder synthesis for a "4/12" across clue -/

/-- A numbering table in which 4 is across-only and 12 is down-only. -/
def c1Grid : Grid :=
  ⟨0, 0, [], [(4, ⟨0, 0, true, false⟩), (12, ⟨0, 0, false, true⟩)]⟩

/-- The across clue labelled "4/12", keyed under 4. -/
def c1Clue : ParsedClue :=
  ⟨"4/12".toList, "Example clue (4,8)".toList, some [(0, 0)], true, [(4, true), (12, false)]⟩

/-- C1 counterexample: with the "4/12" clue present only in the across map,
reconciliation keys a placeholder under 12 in the down map, but its text is
`"See 4 down"` — the suffix names the synthesized entry's own direction,
which differs from the across group — not the claimed `"See 4"`. -/
theorem placeholder_text_counterexample :
    ((reconcile c1Grid [(4, c1Clue)] []).toOption.bind
        (fun ds => (ds.2.find? (fun q => q.1 == 12)).map
          (fun q => q.2.text_including_enumeration))) = some "See 4 down".toList ∧
    "See 4 down".toList ≠ "See 4".toList := by
  constructor
  · decide
  · decide

/-- C1 amended: for any grid whose table derives down-only for 12, and any
across clue keyed 4 referencing `[(4, across), (12, down)]` with the down
map empty, reconciliation adds a down entry keyed 12 whose text is exactly
`"See 4 down"` (direction suffix present because the referenced entry's
direction, down, differs from the across group being scanned). -/
theorem placeholder_synthesis_amended (g : Grid) (clue : ParsedClue)
    (h4 : clue.all_clue_numbers = [(4, true), (12, false)])
    (hg : clue_directions g 12 = ['D']) :
    reconcile g [(4, clue)] [] =
      .ok ([(4, clue)],
        [(12, ⟨Nat.toDigits 10 12, "See 4 down".toList, none, false, [(12, false)]⟩)]) := by
  have hdup : clue_number_string_to_duple false ['1', '2'] g = .ok (12, false) := by
    have h := (duple_digits_cases g false ['1', '2'] (by decide) (by decide)).2.1 'D'
    rw [show natOfDigits ['1', '2'] = 12 from rfl] at h
    have h2 := h hg
    rw [h2]
    rfl
  have hset : pcSetNumber false (Nat.toDigits 10 12) g = .ok [(12, false)] := by
    show resolveTokens false g (splitTokens (Nat.toDigits 10 12)) = _
    rw [show splitTokens (Nat.toDigits 10 12) = [['1', '2']] from rfl]
    unfold resolveTokens
    rw [hdup]
    rfl
  have s1 : synthOne g true 4 (4, true) ([(4, clue)], []) = .ok ([(4, clue)], []) := rfl
  have s2 : synthOne g true 4 (12, false) ([(4, clue)], []) =
      .ok ([(4, clue)],
        [(12, ⟨Nat.toDigits 10 12, "See 4 down".toList, none, false, [(12, false)]⟩)]) := by
    unfold synthOne
    dsimp only
    rw [hset]
    rfl
  have step1 : synthRefs g true 4 [(4, true), (12, false)] ([(4, clue)], []) =
      .ok ([(4, clue)],
        [(12, ⟨Nat.toDigits 10 12, "See 4 down".toList, none, false, [(12, false)]⟩)]) := by
    unfold synthRefs
    rw [s1]
    dsimp only
    unfold synthRefs
    rw [s2]
    rfl
  have step2 : synthClues g true (dictValues [(4, clue)]) ([(4, clue)], []) =
      .ok ([(4, clue)],
        [(12, ⟨Nat.toDigits 10 12, "See 4 down".toList, none, false, [(12, false)]⟩)]) := by
    show synthClues g true [clue] ([(4, clue)], []) = _
    unfold synthClues
    rw [h4]
    dsimp only
    rw [step1]
    rfl
  unfold reconcile
  rw [step2]
  rfl

/-- Witness for C1 (amended) at the concrete table `c1Grid` and clue
`c1Clue`. -/
theorem placeholder_synthesis_amended_witness :
    reconcile c1Grid [(4, c1Clue)] [] =
      .ok ([(4, c1Clue)],
        [(12, ⟨Nat.toDigits 10 12, "See 4 down".toList, none, false, [(12, false)]⟩)]) :=
  placeholder_synthesis_amended c1Grid c1Clue (by decide) (by decide)

/-! ### Claim C7: encoding is idempotent and side-effect free -/

/-- C7: `write_to_puz_file` deep-copies the clue lists before placeholder
synthesis and never assigns to the object, so the puzzle (in particular its
canonical across and down clue maps) is unchanged by encoding, and encoding
the same decoded puzzle twice produces byte-identical output — placeholders
never accumulate across calls. -/
theorem encode_idempotent (p : ParsedCCJ) :
    (write_to_puz_file p).1 = p ∧
    (write_to_puz_file p).1.across_clues = p.across_clues ∧
    (write_to_puz_file p).1.down_clues = p.down_clues ∧
    (write_to_puz_file ((write_to_puz_file p).1)).2 = (write_to_puz_file p).2 :=
  ⟨rfl, rfl, rfl, rfl⟩

/-! ### Claim C8: the serialized output layout -/

/-- Row-major coordinate enumeration of a `height × width` grid. -/
def rowMajor (h w : Nat) : List (Nat × Nat) :=
  (List.range h).flatMap (fun y => (List.range w).map (fun x => (y, x)))

/-- The solution-layer byte of one cell: its letter if present, `'.'` if
blocked. -/
def solByte (g : Grid) (yx : Nat × Nat) : Nat :=
  match cellAt g yx.1 yx.2 with
  | some c => c.letter.toNat
  | none => 46

/-- The player-layer byte of one cell: `'-'` if present, `'.'` if blocked. -/
def playerByte (g : Grid) (yx : Nat × Nat) : Nat :=
  match cellAt g yx.1 yx.2 with
  | some _ => 45
  | none => 46

theorem gridBytesRow_spec (g : Grid) (y : Nat) :
    ∀ (cols x0 : Nat) (s p : List Nat), gridBytesRow g y x0 cols = .ok (s, p) →
      s = (List.range' x0 cols).map (fun x => solByte g (y, x)) ∧
      p = (List.range' x0 cols).map (fun x => playerByte g (y, x)) := by
  intro cols
  induction cols with
  | zero =>
    intro x0 s p h
    unfold gridBytesRow at h
    simp only [Except.ok.injEq, Prod.mk.injEq] at h
    simp [← h.1, ← h.2]
  | succ c ih =>
    intro x0 s p h
    unfold gridBytesRow at h
    cases hc : gridBytesCell (cellAt g y x0) with
    | error e => rw [hc] at h; simp at h
    | ok sp =>
      rw [hc] at h
      obtain ⟨sb, pb⟩ := sp
      cases hr : gridBytesRow g y (x0 + 1) c with
      | error e => rw [hr] at h; simp at h
      | ok ssps =>
        rw [hr] at h
        obtain ⟨ss, ps⟩ := ssps
        simp only [Except.ok.injEq, Prod.mk.injEq] at h
        obtain ⟨ihs, ihp⟩ := ih (x0 + 1) ss ps hr
        have hsb : sb = solByte g (y, x0) ∧ pb = playerByte g (y, x0) := by
          unfold gridBytesCell at hc
          cases hcell : cellAt g y x0 with
          | some cell =>
            rw [hcell] at hc
            dsimp only at hc
            by_cases hlt : cell.letter.toNat < 256
            · rw [if_pos hlt] at hc
              simp only [Except.ok.injEq, Prod.mk.injEq] at hc
              constructor
              · rw [← hc.1]; simp [solByte, hcell]
              · rw [← hc.2]; simp [playerByte, hcell]
            · rw [if_neg hlt] at hc; simp at hc
          | none =>
            rw [hcell] at hc
            dsimp only at hc
            simp only [Except.ok.injEq, Prod.mk.injEq] at hc
            constructor
            · rw [← hc.1]; simp [solByte, hcell]
            · rw [← hc.2]; simp [playerByte, hcell]
        constructor
        · rw [← h.1, List.range'_succ, List.map_cons, hsb.1, ihs]
        · rw [← h.2, List.range'_succ, List.map_cons, hsb.2, ihp]

theorem gridBytesRows_spec (g : Grid) (w : Nat) :
    ∀ (rows y0 : Nat) (s p : List Nat), gridBytesRows g w y0 rows = .ok (s, p) →
      s = (List.range' y0 rows).flatMap
        (fun y => (List.range' 0 w).map (fun x => solByte g (y, x))) ∧
      p = (List.range' y0 rows).flatMap
        (fun y => (List.range' 0 w).map (fun x => playerByte g (y, x))) := by
  intro rows
  induction rows with
  | zero =>
    intro y0 s p h
    unfold gridBytesRows at h
    simp only [Except.ok.injEq, Prod.mk.injEq] at h
    simp [← h.1, ← h.2]
  | succ r ih =>
    intro y0 s p h
    unfold gridBytesRows at h
    cases hrow : gridBytesRow g y0 0 w with
    | error e => rw [hrow] at h; simp at h
    | ok sp1 =>
      rw [hrow] at h
      obtain ⟨s1, p1⟩ := sp1
      cases hrest : gridBytesRows g w (y0 + 1) r with
      | error e => rw [hrest] at h; simp at h
      | ok sp2 =>
        rw [hrest] at h
        obtain ⟨s2, p2⟩ := sp2
        simp only [Except.ok.injEq, Prod.mk.injEq] at h
        obtain ⟨h1, h2⟩ := gridBytesRow_spec g y0 w 0 s1 p1 hrow
        obtain ⟨h3, h4⟩ := ih (y0 + 1) s2 p2 hrest
        constructor
        · rw [← h.1, List.range'_succ, List.flatMap_cons, h1, h3]
        · rw [← h.2, List.range'_succ, List.flatMap_cons, h2, h4]

theorem dictInsert_keys_present {d : List (Nat × ParsedClue)} {k : Nat} {v : ParsedClue}
    (h : d.any (fun p => p.1 == k) = true) :
    (dictInsert d k v).map Prod.fst = d.map Prod.fst := by
  unfold dictInsert
  rw [if_pos h, List.map_map]
  apply List.map_congr_left
  intro q _
  by_cases hq : (q.1 == k) = true
  · have hk : q.1 = k := beq_iff_eq.mp hq
    simp [hq, hk]
  · have hne : q.1 ≠ k := by simpa using hq
    simp [hne]

theorem dictInsert_keys_absent {d : List (Nat × ParsedClue)} {k : Nat} {v : ParsedClue}
    (h : d.any (fun p => p.1 == k) = false) :
    (dictInsert d k v).map Prod.fst = d.map Prod.fst ++ [k] := by
  unfold dictInsert
  rw [if_neg (by simp [h])]
  simp

theorem any_key_false_not_mem {d : List (Nat × ParsedClue)} {k : Nat}
    (h : d.any (fun p => p.1 == k) = false) : k ∉ d.map Prod.fst := by
  intro hmem
  obtain ⟨q, hq, hfst⟩ := List.mem_map.mp hmem
  have h2 := (List.any_eq_false.mp h) q hq
  rw [hfst] at h2
  simp at h2

theorem dictInsert_keys_nodup {d : List (Nat × ParsedClue)} {k : Nat} {v : ParsedClue}
    (h : (d.map Prod.fst).Nodup) : ((dictInsert d k v).map Prod.fst).Nodup := by
  cases ha : d.any (fun p => p.1 == k) with
  | true => rw [dictInsert_keys_present ha]; exact h
  | false =>
    rw [dictInsert_keys_absent ha, List.nodup_append]
    refine ⟨h, List.nodup_singleton k, ?_⟩
    rw [List.disjoint_singleton]
    exact any_key_false_not_mem ha

theorem synthOne_keys_nodup {g : Grid} {ga : Bool} {fn rn : Nat} {rb : Bool}
    {ds ds' : List (Nat × ParsedClue) × List (Nat × ParsedClue)}
    (h : synthOne g ga fn (rn, rb) ds = .ok ds')
    (ha : (ds.1.map Prod.fst).Nodup) (hd : (ds.2.map Prod.fst).Nodup) :
    (ds'.1.map Prod.fst).Nodup ∧ (ds'.2.map Prod.fst).Nodup := by
  unfold synthOne at h
  cases rb with
  | true =>
    dsimp only at h
    by_cases hany : (ds.1.any (fun p => p.1 == rn)) = true
    · rw [if_pos hany] at h
      simp only [Except.ok.injEq] at h
      rw [← h]
      exact ⟨ha, hd⟩
    · rw [if_neg hany] at h
      cases hset : pcSetNumber true (Nat.toDigits 10 rn) g with
      | error e => rw [hset] at h; simp at h
      | ok nums =>
        rw [hset] at h
        simp only [Except.ok.injEq] at h
        rw [← h]
        exact ⟨dictInsert_keys_nodup ha, hd⟩
  | false =>
    dsimp only at h
    by_cases hany : (ds.2.any (fun p => p.1 == rn)) = true
    · rw [if_pos hany] at h
      simp only [Except.ok.injEq] at h
      rw [← h]
      exact ⟨ha, hd⟩
    · rw [if_neg hany] at h
      cases hset : pcSetNumber false (Nat.toDigits 10 rn) g with
      | error e => rw [hset] at h; simp at h
      | ok nums =>
        rw [hset] at h
        simp only [Except.ok.injEq] at h
        rw [← h]
        exact ⟨ha, dictInsert_keys_nodup hd⟩

theorem synthRefs_keys_nodup {g : Grid} {ga : Bool} {fn : Nat} :
    ∀ {rs : List (Nat × Bool)} {ds ds' : List (Nat × ParsedClue) × List (Nat × ParsedClue)},
      synthRefs g ga fn rs ds = .ok ds' →
      (ds.1.map Prod.fst).Nodup → (ds.2.map Prod.fst).Nodup →
      (ds'.1.map Prod.fst).Nodup ∧ (ds'.2.map Prod.fst).Nodup := by
  intro rs
  induction rs with
  | nil =>
    intro ds ds' h ha hd
    unfold synthRefs at h
    simp only [Except.ok.injEq] at h
    rw [← h]
    exact ⟨ha, hd⟩
  | cons r rest ih =>
    intro ds ds' h ha hd
    obtain ⟨rn, rb⟩ := r
    unfold synthRefs at h
    cases ho : synthOne g ga fn (rn, rb) ds with
    | error e => rw [ho] at h; simp at h
    | ok ds1 =>
      rw [ho] at h
      obtain ⟨h1, h2⟩ := synthOne_keys_nodup ho ha hd
      exact ih h h1 h2

theorem synthClues_keys_nodup {g : Grid} {ga : Bool} :
    ∀ {cs : List ParsedClue} {ds ds' : List (Nat × ParsedClue) × List (Nat × ParsedClue)},
      synthClues g ga cs ds = .ok ds' →
      (ds.1.map Prod.fst).Nodup → (ds.2.map Prod.fst).Nodup →
      (ds'.1.map Prod.fst).Nodup ∧ (ds'.2.map Prod.fst).Nodup := by
  intro cs
  induction cs with
  | nil =>
    intro ds ds' h ha hd
    unfold synthClues at h
    simp only [Except.ok.injEq] at h
    rw [← h]
    exact ⟨ha, hd⟩
  | cons c rest ih =>
    intro ds ds' h ha hd
    unfold synthClues at h
    cases hn : c.all_clue_numbers with
    | nil => rw [hn] at h; simp at h
    | cons p prest =>
      obtain ⟨n1, b1⟩ := p
      rw [hn] at h
      dsimp only at h
      cases hr : synthRefs g ga n1 ((n1, b1) :: prest) ds with
      | error e => rw [hr] at h; simp at h
      | ok ds1 =>
        rw [hr] at h
        obtain ⟨h1, h2⟩ := synthRefs_keys_nodup hr ha hd
        exact ih h h1 h2

theorem reconcile_keys_nodup {g : Grid} {aD dD aD' dD' : List (Nat × ParsedClue)}
    (h : reconcile g aD dD = .ok (aD', dD'))
    (ha : (aD.map Prod.fst).Nodup) (hd : (dD.map Prod.fst).Nodup) :
    (aD'.map Prod.fst).Nodup ∧ (dD'.map Prod.fst).Nodup := by
  unfold reconcile at h
  cases h1 : synthClues g true (dictValues aD) (aD, dD) with
  | error e => rw [h1] at h; simp at h
  | ok ds1 =>
    rw [h1] at h
    dsimp only at h
    obtain ⟨ha1, hd1⟩ := synthClues_keys_nodup h1 ha hd
    cases h2 : synthClues g false (dictValues ds1.2) ds1 with
    | error e => rw [h2] at h; simp at h
    | ok ds2 =>
      rw [h2] at h
      obtain ⟨ha2, hd2⟩ := synthClues_keys_nodup h2 ha1 hd1
      simp only [Except.ok.injEq] at h
      rw [show ds2 = (aD', dD') from h] at ha2 hd2
      exact ⟨ha2, hd2⟩

theorem filterMap_lookup_keys : ∀ (d : List (Nat × ParsedClue)),
    (d.map Prod.fst).Nodup →
    (d.map Prod.fst).filterMap (lookupClue d) = dictValues d := by
  intro d
  induction d with
  | nil => intro _; rfl
  | cons q t ih =>
    intro h
    obtain ⟨k, v⟩ := q
    rw [List.map_cons] at h ⊢
    rw [List.nodup_cons] at h
    rw [List.filterMap_cons]
    have hk : lookupClue ((k, v) :: t) k = some v := by
      unfold lookupClue
      rw [List.find?_cons_of_pos _ (by simp)]
      rfl
    rw [hk]
    have hcongr : ∀ x ∈ t.map Prod.fst, lookupClue ((k, v) :: t) x = lookupClue t x := by
      intro x hx
      have hxk : x ≠ k := fun he => h.1 (he ▸ hx)
      unfold lookupClue
      rw [List.find?_cons_of_neg _ (by
        simp only [beq_iff_eq]
        exact fun hh => hxk hh.symm)]
    rw [List.filterMap_congr hcongr, ih h.2]
    rfl

theorem ordered_perm_values (d : List (Nat × ParsedClue))
    (h : (d.map Prod.fst).Nodup) :
    (ordered_list_of_clues d).Perm (dictValues d) := by
  unfold ordered_list_of_clues
  have hperm : (sortedKeys d).Perm (d.map Prod.fst) := List.perm_insertionSort _ _
  have h1 := hperm.filterMap (lookupClue d)
  rw [filterMap_lookup_keys d h] at h1
  exact h1

theorem map_rowMajor {α : Type} (f : Nat × Nat → α) (h w : Nat) :
    (rowMajor h w).map f =
      (List.range' 0 h).flatMap (fun y => (List.range' 0 w).map (fun x => f (y, x))) := by
  unfold rowMajor
  rw [← List.range_eq_range', List.map_flatMap]
  congr 1
  funext y
  rw [List.map_map, ← List.range_eq_range']
  rfl

/-- C8: a successful serialization is, in order: a fixed 52-byte header
region (44 zero bytes, the width and height bytes, the little-endian clue
count, 4 more zero bytes), the solution layer (one byte per cell in
row-major order — the letter for a light, `'.'` for a block), the player
layer of the same shape (`'-'`/`'.'`), the NUL-terminated title, author and
copyright strings, then one NUL-terminated clue line per clue-map entry
(`clueLine` renders `"[<label>] <text>"` with `/` replaced by `,` and
lower-cased), ordered by (first entry number, across before down on ties),
and a final trailing NUL. -/
theorem puz_output_layout (p : ParsedCCJ) (out : List Nat)
    (ha : (p.across_clues.clue_dictionary.map Prod.fst).Nodup)
    (hd : (p.down_clues.clue_dictionary.map Prod.fst).Nodup)
    (h : writeBytes p = .ok out) :
    ∃ aDict dDict sorted,
      reconcile p.grid p.across_clues.clue_dictionary p.down_clues.clue_dictionary =
        .ok (aDict, dDict) ∧
      out = List.replicate 44 0 ++ [p.width, p.height] ++
        [(aDict.length + dDict.length) % 256, (aDict.length + dDict.length) / 256] ++
        List.replicate 4 0 ++
        (rowMajor p.height p.width).map (solByte p.grid) ++
        (rowMajor p.height p.width).map (playerByte p.grid) ++
        encodeUtf8 p.title ++ [0] ++ encodeUtf8 p.author ++ [0] ++
        encodeUtf8 p.copyright_message ++ [0] ++
        sorted.flatMap clueLine ++ [0] ∧
      List.Sorted keyLe sorted ∧
      sorted.Perm (dictValues aDict ++ dictValues dDict) := by
  unfold writeBytes at h
  cases hrec : reconcile p.grid p.across_clues.clue_dictionary p.down_clues.clue_dictionary with
  | error e => rw [hrec] at h; simp at h
  | ok ds =>
    rw [hrec] at h
    obtain ⟨aD, dD⟩ := ds
    dsimp only at h
    by_cases hwh : p.width < 256 ∧ p.height < 256
    · rw [if_pos hwh] at h
      unfold pack16le at h
      by_cases hcnt : aD.length + dD.length < 0x8000
      · rw [if_pos hcnt] at h
        dsimp only at h
        cases hgb : gridBytesRows p.grid p.width 0 p.height with
        | error e => rw [hgb] at h; simp at h
        | ok sp =>
          rw [hgb] at h
          obtain ⟨sol, player⟩ := sp
          dsimp only at h
          simp only [Except.ok.injEq] at h
          obtain ⟨hsol, hplay⟩ := gridBytesRows_spec p.grid p.width p.height 0 sol player hgb
          refine ⟨aD, dD,
            List.insertionSort keyLe (ordered_list_of_clues aD ++ ordered_list_of_clues dD),
            rfl, ?_, ?_, ?_⟩
          · rw [← h, hsol, hplay, map_rowMajor, map_rowMajor]
          · exact List.sorted_insertionSort keyLe _
          · have hkeys := reconcile_keys_nodup hrec ha hd
            have pa := ordered_perm_values aD hkeys.1
            have pd := ordered_perm_values dD hkeys.2
            exact (List.perm_insertionSort keyLe _).trans (pa.append pd)
      · rw [if_neg hcnt] at h; simp at h
    · rw [if_neg hwh] at h; simp at h

/-- The spec's minimal synthetic puzzle: a 2×1 grid of two lights numbered
1 across, one across clue `"1"` with text `"Test (4)"`. -/
def miniPuzzle : ParsedCCJ :=
  ⟨2, 1,
   ⟨2, 1, [[some ⟨'O', 0, 0⟩, some ⟨'K', 0, 1⟩]], [(1, ⟨0, 0, true, false⟩)]⟩,
   ⟨"Across".toList, true, [0, 0, 0], 1,
     [(1, ⟨"1".toList, "Test (4)".toList, some [(0, 0)], true, [(1, true)]⟩)]⟩,
   ⟨"Down".toList, false, [0, 0, 0], 0, []⟩,
   none, none, "Crossword".toList, "Unknown Setter".toList, "© Unknown".toList⟩

/-- The bytes the encoder produces for `miniPuzzle`. -/
def miniOut : List Nat :=
  ((writeBytes miniPuzzle).toOption).getD []

/-- Witness for C8 at `miniPuzzle`. -/
theorem puz_output_layout_witness :
    ∃ aDict dDict sorted,
      reconcile miniPuzzle.grid miniPuzzle.across_clues.clue_dictionary
          miniPuzzle.down_clues.clue_dictionary = .ok (aDict, dDict) ∧
      miniOut = List.replicate 44 0 ++ [miniPuzzle.width, miniPuzzle.height] ++
        [(aDict.length + dDict.length) % 256, (aDict.length + dDict.length) / 256] ++
        List.replicate 4 0 ++
        (rowMajor miniPuzzle.height miniPuzzle.width).map (solByte miniPuzzle.grid) ++
        (rowMajor miniPuzzle.height miniPuzzle.width).map (playerByte miniPuzzle.grid) ++
        encodeUtf8 miniPuzzle.title ++ [0] ++ encodeUtf8 miniPuzzle.author ++ [0] ++
        encodeUtf8 miniPuzzle.copyright_message ++ [0] ++
        sorted.flatMap clueLine ++ [0] ∧
      List.Sorted keyLe sorted ∧
      sorted.Perm (dictValues aDict ++ dictValues dDict) :=
  puz_output_layout miniPuzzle miniOut (by decide) (by decide) (by rfl)

/-! ### The CCJ structural decoder (`ParsedCCJ.read_from_ccj`) -/

/-- The button-label loop: length-prefixed strings until a NUL appears in
place of a length byte; returns the NUL's position.  (The strings are used
only for verbose diagnostics.) -/
def buttonsLoop (d : List Nat) : Nat → Nat → Except Err Nat
  | 0, _ => .error .outOfFuel
  | fuel + 1, i =>
    match byte_at d i with
    | .error e => .error e
    | .ok b =>
      if b = 0 then .ok i
      else
        match read_string d i with
        | .error e => .error e
        | .ok (_, i') => buttonsLoop d fuel i'

/-- Advance byte-by-byte until `'?'` (0x3F) or `'#'` (0x23); returns the
marker's position (the marker itself is consumed by the grid layer). -/
def skipUntilMarker (d : List Nat) : Nat → Nat → Except Err Nat
  | 0, _ => .error .outOfFuel
  | fuel + 1, i =>
    match byte_at d i with
    | .error e => .error e
    | .ok b => if b = 0x3f ∨ b = 0x23 then .ok i else skipUntilMarker d fuel (i + 1)

/-- One row of the light/block layer: `'?'`/`'M'` creates a present cell
(letter `'+'`), `'#'` leaves it blocked, anything else is fatal. -/
def readGridRow (d : List Nat) (y : Nat) : Nat → Nat → Nat → Except Err (List (Option Cell) × Nat)
  | 0, _, i => .ok ([], i)
  | cols + 1, x, i =>
    match byte_at d i with
    | .error e => .error e
    | .ok b =>
      if b = 0x3f ∨ b = 0x4d then
        match readGridRow d y cols (x + 1) (i + 1) with
        | .error e => .error e
        | .ok (rest, i') => .ok (some ⟨'+', y, x⟩ :: rest, i')
      else if b = 0x23 then
        match readGridRow d y cols (x + 1) (i + 1) with
        | .error e => .error e
        | .ok (rest, i') => .ok (none :: rest, i')
      else .error .malformed

/-- All rows of the light/block layer, row-major. -/
def readGridRows (d : List Nat) (w : Nat) : Nat → Nat → Nat → Except Err (List (List (Option Cell)) × Nat)
  | 0, _, i => .ok ([], i)
  | rows + 1, y, i =>
    match readGridRow d y w 0 i with
    | .error e => .error e
    | .ok (row, i') =>
      match readGridRows d w rows (y + 1) i' with
      | .error e => .error e
      | .ok (rest, i'') => .ok (row :: rest, i'')

/-- The decoder state after the light/block layer: position of the secondary
numeric layer, the dimensions, and the numbered grid. -/
structure PreState where
  pos : Nat
  width : Nat
  height : Nat
  grid : Grid
deriving Repr, DecidableEq

/-- Everything `read_from_ccj` does before the secondary numeric layer:
magic prefix skip, button labels, congratulations string, one unvalidated
byte, width and height, the skip to the first grid marker, the light/block
layer, and grid numbering. -/
def readPre (d : List Nat) : Except Err PreState :=
  match buttonsLoop d (d.length + 1) 2 with
  | .error e => .error e
  | .ok nulPos =>
    match read_string d (nulPos + 1) with
    | .error e => .error e
    | .ok (_, i1) =>
      match byte_at d (i1 + 1) with
      | .error e => .error e
      | .ok w =>
        match byte_at d (i1 + 2) with
        | .error e => .error e
        | .ok hgt =>
          match skipUntilMarker d (d.length + 1) (i1 + 3) with
          | .error e => .error e
          | .ok m =>
            match readGridRows d w hgt 0 m with
            | .error e => .error e
            | .ok (cells, i2) =>
              .ok ⟨i2, w, hgt, set_numbers ⟨w, hgt, cells, []⟩⟩

/-- One row of the secondary numeric layer (`grid_unknown_purpose`): byte 0
is a space, 1–9 the digit, anything larger its last decimal digit (with a
verbose-only warning). -/
def readSecRow (d : List Nat) : Nat → Nat → Except Err (List Char × Nat)
  | 0, i => .ok ([], i)
  | cols + 1, i =>
    match byte_at d i with
    | .error e => .error e
    | .ok b =>
      match readSecRow d cols (i + 1) with
      | .error e => .error e
      | .ok (rest, i') =>
        .ok ((if b = 0 then ' ' else Char.ofNat (48 + b % 10)) :: rest, i')

/-- The whole secondary numeric layer; its letters are kept in a local grid
the decoder never stores on the puzzle. -/
def readSec (d : List Nat) (w : Nat) : Nat → Nat → Except Err (List (List Char) × Nat)
  | 0, i => .ok ([], i)
  | rows + 1, i =>
    match readSecRow d w i with
    | .error e => .error e
    | .ok (row, i') =>
      match readSec d w rows i' with
      | .error e => .error e
      | .ok (rest, i'') => .ok (row :: rest, i'')

/-- The answer layer over one row of cells: one byte per *present* cell,
stored as the cell's letter via `chr`. -/
def fillRow (d : List Nat) : List (Option Cell) → Nat → Except Err (List (Option Cell) × Nat)
  | [], i => .ok ([], i)
  | none :: rest, i =>
    match fillRow d rest i with
    | .error e => .error e
    | .ok (rest', i') => .ok (none :: rest', i')
  | some c :: rest, i =>
    match byte_at d i with
    | .error e => .error e
    | .ok b =>
      match fillRow d rest (i + 1) with
      | .error e => .error e
      | .ok (rest', i') => .ok (some { c with letter := Char.ofNat b } :: rest', i')

/-- The answer layer over all rows. -/
def fillRows (d : List Nat) : List (List (Option Cell)) → Nat → Except Err (List (List (Option Cell)) × Nat)
  | [], i => .ok ([], i)
  | row :: rest, i =>
    match fillRow d row i with
    | .error e => .error e
    | .ok (row', i') =>
      match fillRows d rest i' with
      | .error e => .error e
      | .ok (rest', i'') => .ok (row' :: rest', i'')

/-- `skippable_block_of_four` from `ccj_parse.py`: the 4 bytes at `i` equal
one of three fixed filler patterns (a truncated slice never matches). -/
def skippable_block_of_four (d : List Nat) (i : Nat) : Bool :=
  let block := pySlice d i (i + 4)
  block == [0x00, 0xff, 0xff, 0xff] || block == [0x00, 0x00, 0xff, 0xff] ||
    block == [0x00, 0x00, 0x00, 0x00]

/-- Repeatedly consume 4-byte filler blocks. -/
def fillerLoop (d : List Nat) : Nat → Nat → Except Err Nat
  | 0, _ => .error .outOfFuel
  | fuel + 1, i => if skippable_block_of_four d i then fillerLoop d fuel (i + 4) else .ok i

/-- The greedy match of `re.search(r'^(.*)-([0-9]+)', label)`: split at the
last `-` that is followed by a digit; group 2 is the digit run after it. -/
def lastDashDigits : List Char → Option (List Char × List Char)
  | [] => none
  | c :: rest =>
    match lastDashDigits rest with
    | some (g1, g2) => some (c :: g1, g2)
    | none =>
      if c = '-' then
        match rest with
        | c2 :: _ => if isAsciiDigit c2 then some ([], rest.takeWhile isAsciiDigit) else none
        | [] => none
      else none

/-- Python truthiness of an optional string (absent and empty are falsy). -/
def optTruthy : Option (List Char) → Bool
  | none => false
  | some s => !s.isEmpty

/-- The metadata assembly at the end of `read_from_ccj`: setter and puzzle
number extracted from the across-section label, caller overrides, and the
fixed default strings.  Returns (setter, puzzle_number, title, author,
copyright). -/
def assembleMeta (acrossLabel : List Char)
    (title author puzzle_number copyright date_string : Option (List Char)) :
    Option (List Char) × Option (List Char) × List Char × List Char × List Char :=
  let m := lastDashDigits acrossLabel
  let setter0 : Option (List Char) := m.map Prod.fst
  let pn0 : Option (List Char) := m.map Prod.snd
  let setter1 := if !optTruthy setter0 && optTruthy author then author else setter0
  let pn1 := if !optTruthy pn0 && optTruthy puzzle_number then puzzle_number else pn0
  let title0 := if optTruthy title then title.getD [] else "Crossword".toList
  let title1 :=
    if optTruthy setter1 && optTruthy pn1 then
      title0 ++ ' ' :: pn1.getD [] ++ " / ".toList ++ setter1.getD []
    else if optTruthy setter1 then title0 ++ " / ".toList ++ setter1.getD []
    else if optTruthy pn1 then title0 ++ ' ' :: pn1.getD []
    else title0
  let title2 :=
    if optTruthy date_string then title1 ++ " (".toList ++ date_string.getD [] ++ [')']
    else title1
  let author1 := if optTruthy author then author.getD [] else "Unknown Setter".toList
  let copyright1 := if optTruthy copyright then copyright.getD [] else "Â© Unknown".toList
  (setter1, pn1, title2, author1, copyright1)

/-- Everything `read_from_ccj` does after the secondary numeric layer: the
mandatory 0x01 separator, the answer layer, the filler blocks, the 0x02
marker and its 16-byte block, the across and down clue sections, and the
metadata assembly. -/
def readPost (d : List Nat) (pos : Nat) (s : PreState)
    (title author puzzle_number copyright date_string : Option (List Char)) :
    Except Err ParsedCCJ :=
  match byte_at d pos with
  | .error e => .error e
  | .ok b =>
    if b ≠ 1 then .error .malformed
    else
      match fillRows d s.grid.cells (pos + 1) with
      | .error e => .error e
      | .ok (cells', i1) =>
        let grid' : Grid := { s.grid with cells := cells' }
        match fillerLoop d (d.length + 1) i1 with
        | .error e => .error e
        | .ok i2 =>
          match byte_at d i2 with
          | .error e => .error e
          | .ok b2 =>
            if b2 ≠ 2 then .error .malformed
            else
              match parse_list_of_clues d (i2 + 16) grid' with
              | .error e => .error e
              | .ok (across, i3, _) =>
                match parse_list_of_clues d i3 grid' with
                | .error e => .error e
                | .ok (down, _, _) =>
                  let meta := assembleMeta across.label title author
                    puzzle_number copyright date_string
                  .ok ⟨s.width, s.height, grid', across, down,
                    meta.1, meta.2.1, meta.2.2.1, meta.2.2.2.1, meta.2.2.2.2⟩

/-- `ParsedCCJ.read_from_ccj` on a complete buffer: the pre-layer stages,
the secondary numeric layer (read in lock-step but kept only in a local
diagnostic grid that is dropped here, as in the source), then the rest. -/
def read_from_ccj (d : List Nat)
    (title author puzzle_number copyright date_string : Option (List Char)) :
    Except Err ParsedCCJ :=
  match readPre d with
  | .error e => .error e
  | .ok s =>
    match readSec d s.width s.height s.pos with
    | .error e => .error e
    | .ok (_, pos') => readPost d pos' s title author puzzle_number copyright date_string

/-! ### Buffer-locality lemmas: parsers read only the bytes of their span -/

/-- The two buffers agree at every index from `i` on. -/
def SuffixAgree (d1 d2 : List Nat) (i : Nat) : Prop :=
  ∀ k, i ≤ k → d1[k]? = d2[k]?

theorem SuffixAgree.mono {d1 d2 : List Nat} {i j : Nat}
    (h : SuffixAgree d1 d2 i) (hij : i ≤ j) : SuffixAgree d1 d2 j :=
  fun k hk => h k (le_trans hij hk)

theorem byte_at_congr {d1 d2 : List Nat} {i : Nat} (h : d1[i]? = d2[i]?) :
    byte_at d1 i = byte_at d2 i := by
  unfold byte_at
  rw [h]

theorem pySlice_congr_suffix {d1 d2 : List Nat} {i a b : Nat}
    (h : SuffixAgree d1 d2 i) (hia : i ≤ a) : pySlice d1 a b = pySlice d2 a b := by
  unfold pySlice
  apply List.filterMap_congr
  intro k hk
  have hak : a ≤ k := (List.mem_range'_1.mp hk).1
  exact h k (le_trans hia hak)

theorem read_string_congr_suffix {d1 d2 : List Nat} {i : Nat}
    (h : SuffixAgree d1 d2 i) : read_string d1 i = read_string d2 i := by
  unfold read_string
  rw [byte_at_congr (h i le_rfl)]
  cases byte_at d2 i with
  | error e => rfl
  | ok n =>
    dsimp only
    rw [pySlice_congr_suffix h (by omega)]

theorem read_string_mono {d : List Nat} {i : Nat} {s : List Char} {i' : Nat}
    (h : read_string d i = .ok (s, i')) : i ≤ i' := by
  unfold read_string at h
  cases hb : byte_at d i with
  | error e => rw [hb] at h; simp at h
  | ok n =>
    rw [hb] at h
    dsimp only at h
    cases hd : decode_bytes (pySlice d (i + 1) (i + n + 1)) with
    | error e => rw [hd] at h; simp at h
    | ok str =>
      rw [hd] at h
      simp only [Except.ok.injEq, Prod.mk.injEq] at h
      omega

theorem readCoordsLoop_congr {d1 d2 : List Nat} :
    ∀ (fuel i : Nat) (acc : List (Nat × Nat)), SuffixAgree d1 d2 i →
      readCoordsLoop d1 fuel i acc = readCoordsLoop d2 fuel i acc := by
  intro fuel
  induction fuel with
  | zero => intro i acc h; rfl
  | succ f ih =>
    intro i acc h
    unfold readCoordsLoop
    rw [byte_at_congr (h i le_rfl)]
    cases byte_at d2 i with
    | error e => rfl
    | ok b =>
      dsimp only
      by_cases hb : b = 0
      · rw [if_pos hb, if_pos hb]
      · rw [if_neg hb, if_neg hb, byte_at_congr (h (i + 1) (by omega))]
        cases byte_at d2 (i + 1) with
        | error e => rfl
        | ok c => exact ih (i + 2) _ (h.mono (by omega))

theorem readCoordsLoop_mono {d : List Nat} :
    ∀ (fuel i : Nat) (acc cs : List (Nat × Nat)) (i' : Nat),
      readCoordsLoop d fuel i acc = .ok (cs, i') → i ≤ i' := by
  intro fuel
  induction fuel with
  | zero => intro i acc cs i' h; simp [readCoordsLoop] at h
  | succ f ih =>
    intro i acc cs i' h
    unfold readCoordsLoop at h
    cases hb : byte_at d i with
    | error e => rw [hb] at h; simp at h
    | ok b =>
      rw [hb] at h
      dsimp only at h
      by_cases hb0 : b = 0
      · rw [if_pos hb0] at h
        simp only [Except.ok.injEq, Prod.mk.injEq] at h
        omega
      · rw [if_neg hb0] at h
        cases hc : byte_at d (i + 1) with
        | error e => rw [hc] at h; simp at h
        | ok c =>
          rw [hc] at h
          have := ih (i + 2) _ _ _ h
          omega

theorem read_clue_start_coordinates_congr {d1 d2 : List Nat} {i : Nat}
    (hlen : d1.length = d2.length) (h : SuffixAgree d1 d2 i) :
    read_clue_start_coordinates d1 i = read_clue_start_coordinates d2 i := by
  unfold read_clue_start_coordinates
  rw [byte_at_congr (h i le_rfl), hlen]
  cases byte_at d2 i with
  | error e => rfl
  | ok b =>
    dsimp only
    by_cases hb : 0x80 ≤ b
    · rw [if_pos hb, if_pos hb, readCoordsLoop_congr (d2.length + 1) i [] h]
    · rw [if_neg hb, if_neg hb, byte_at_congr (h (i + 1) (by omega))]

theorem read_clue_start_coordinates_mono {d : List Nat} {i : Nat}
    {cs : List (Nat × Nat)} {i' : Nat}
    (h : read_clue_start_coordinates d i = .ok (cs, i')) : i ≤ i' := by
  unfold read_clue_start_coordinates at h
  cases hb : byte_at d i with
  | error e => rw [hb] at h; simp at h
  | ok b =>
    rw [hb] at h
    dsimp only at h
    by_cases h80 : 0x80 ≤ b
    · rw [if_pos h80] at h
      exact readCoordsLoop_mono (d.length + 1) i [] cs i' h
    · rw [if_neg h80] at h
      cases hc : byte_at d (i + 1) with
      | error e => rw [hc] at h; simp at h
      | ok c =>
        rw [hc] at h
        simp only [Except.ok.injEq, Prod.mk.injEq] at h
        omega

theorem parseOneClue_congr {d1 d2 : List Nat} {g : Grid} {across : Bool} {i : Nat}
    (hlen : d1.length = d2.length) (h : SuffixAgree d1 d2 i) :
    parseOneClue d1 g across i = parseOneClue d2 g across i := by
  unfold parseOneClue
  rw [read_clue_start_coordinates_congr hlen h]
  cases hc : read_clue_start_coordinates d2 i with
  | error e => rfl
  | ok ci =>
    obtain ⟨coords, i1⟩ := ci
    dsimp only
    have hi1 : i ≤ i1 := read_clue_start_coordinates_mono hc
    rw [read_string_congr_suffix (h.mono hi1)]
    cases hs : read_string d2 i1 with
    | error e => rfl
    | ok si =>
      obtain ⟨numStr, i2⟩ := si
      dsimp only
      have hi2 : i1 ≤ i2 := read_string_mono hs
      cases pcSetNumber across numStr g with
      | error e => rfl
      | ok nums =>
        dsimp only
        rw [byte_at_congr ((h.mono (le_trans hi1 hi2)) i2 le_rfl)]
        cases byte_at d2 i2 with
        | error e => rfl
        | ok b =>
          dsimp only
          by_cases hb : b ≠ 0
          · rw [if_pos hb, if_pos hb]
          · rw [if_neg hb, if_neg hb,
              read_string_congr_suffix (h.mono (by omega : i ≤ i2 + 1))]

theorem parseOneClue_mono {d : List Nat} {g : Grid} {across : Bool} {i : Nat}
    {clue : ParsedClue} {i' : Nat}
    (h : parseOneClue d g across i = .ok (clue, i')) : i ≤ i' := by
  unfold parseOneClue at h
  cases hc : read_clue_start_coordinates d i with
  | error e => rw [hc] at h; simp at h
  | ok ci =>
    rw [hc] at h
    obtain ⟨coords, i1⟩ := ci
    dsimp only at h
    have hi1 : i ≤ i1 := read_clue_start_coordinates_mono hc
    cases hs : read_string d i1 with
    | error e => rw [hs] at h; simp at h
    | ok si =>
      rw [hs] at h
      obtain ⟨numStr, i2⟩ := si
      dsimp only at h
      have hi2 : i1 ≤ i2 := read_string_mono hs
      cases hps : pcSetNumber across numStr g with
      | error e => rw [hps] at h; dsimp only at h; simp at h
      | ok nums =>
        rw [hps] at h
        dsimp only at h
        cases hb : byte_at d i2 with
        | error e => rw [hb] at h; simp at h
        | ok b =>
          rw [hb] at h
          dsimp only at h
          by_cases hb0 : b ≠ 0
          · rw [if_pos hb0] at h; simp at h
          · rw [if_neg hb0] at h
            cases ht : read_string d (i2 + 1) with
            | error e => rw [ht] at h; simp at h
            | ok ti =>
              rw [ht] at h
              obtain ⟨text, i3⟩ := ti
              have hi3 : i2 + 1 ≤ i3 := read_string_mono ht
              simp only [Except.ok.injEq, Prod.mk.injEq] at h
              omega

theorem clueLoop_congr {d1 d2 : List Nat} {g : Grid} {across : Bool}
    (hlen : d1.length = d2.length) :
    ∀ (m i : Nat) (dict : List (Nat × ParsedClue)) (iters : Nat),
      SuffixAgree d1 d2 i →
      clueLoop d1 g across m i dict iters = clueLoop d2 g across m i dict iters := by
  intro m
  induction m with
  | zero =>
    intro i dict iters h
    unfold clueLoop
    rw [parseOneClue_congr hlen h]
  | succ m' ih =>
    intro i dict iters h
    unfold clueLoop
    rw [parseOneClue_congr hlen h]
    cases hp : parseOneClue d2 g across i with
    | error e => rfl
    | ok ci =>
      obtain ⟨clue, i'⟩ := ci
      dsimp only
      have hi' : i ≤ i' := parseOneClue_mono hp
      cases clue.all_clue_numbers with
      | nil => rfl
      | cons p rest =>
        obtain ⟨n0, dir0⟩ := p
        dsimp only
        exact ih i' _ _ (h.mono hi')

theorem clueLoop_mono {d : List Nat} {g : Grid} {across : Bool} :
    ∀ (m i : Nat) (dict : List (Nat × ParsedClue)) (iters : Nat)
      (dict' : List (Nat × ParsedClue)) (pos iters' : Nat),
      clueLoop d g across m i dict iters = .ok (dict', pos, iters') → i ≤ pos := by
  intro m
  induction m with
  | zero =>
    intro i dict iters dict' pos iters' h
    cases hp : parseOneClue d g across i with
    | error e => unfold clueLoop at h; rw [hp] at h; simp at h
    | ok ci =>
      obtain ⟨clue, i'⟩ := ci
      cases hn : clue.all_clue_numbers with
      | nil => unfold clueLoop at h; rw [hp] at h; dsimp only at h; rw [hn] at h; simp at h
      | cons p rest =>
        obtain ⟨n0, dir0⟩ := p
        rw [clueLoop_zero d g across i dict iters clue i' n0 dir0 rest hp hn] at h
        simp only [Except.ok.injEq, Prod.mk.injEq] at h
        have := parseOneClue_mono hp
        omega
  | succ m' ih =>
    intro i dict iters dict' pos iters' h
    cases hp : parseOneClue d g across i with
    | error e => unfold clueLoop at h; rw [hp] at h; simp at h
    | ok ci =>
      obtain ⟨clue, i'⟩ := ci
      cases hn : clue.all_clue_numbers with
      | nil => unfold clueLoop at h; rw [hp] at h; dsimp only at h; rw [hn] at h; simp at h
      | cons p rest =>
        obtain ⟨n0, dir0⟩ := p
        rw [clueLoop_succ d g across m' i dict iters clue i' n0 dir0 rest hp hn] at h
        have h1 := ih i' _ _ _ _ _ h
        have h2 := parseOneClue_mono hp
        omega

theorem parse_list_of_clues_congr {d1 d2 : List Nat} {i : Nat} {g : Grid}
    (hlen : d1.length = d2.length) (h : SuffixAgree d1 d2 i) :
    parse_list_of_clues d1 i g = parse_list_of_clues d2 i g := by
  unfold parse_list_of_clues
  rw [read_string_congr_suffix h]
  cases hs : read_string d2 i with
  | error e => rfl
  | ok li =>
    obtain ⟨label, i1⟩ := li
    dsimp only
    have hi1 : i ≤ i1 := read_string_mono hs
    cases hcls : (if containsCI "across".toList label then some true
        else if containsCI "down".toList label then some false else none) with
    | none => rfl
    | some across =>
      dsimp only
      rw [pySlice_congr_suffix (h.mono hi1) (by omega),
        byte_at_congr ((h.mono hi1) (i1 + 3) (by omega))]
      cases byte_at d2 (i1 + 3) with
      | error e => rfl
      | ok n =>
        dsimp only
        rw [clueLoop_congr hlen (n - 1) (i1 + 3 + 1) [] 0 (h.mono (by omega))]

theorem parse_list_of_clues_mono {d : List Nat} {i : Nat} {g : Grid}
    {r : ListOfClues} {pos iters : Nat}
    (h : parse_list_of_clues d i g = .ok (r, pos, iters)) : i ≤ pos := by
  unfold parse_list_of_clues at h
  cases hs : read_string d i with
  | error e => rw [hs] at h; simp at h
  | ok li =>
    rw [hs] at h
    obtain ⟨label, i1⟩ := li
    dsimp only at h
    have hi1 : i ≤ i1 := read_string_mono hs
    cases hcls : (if containsCI "across".toList label then some true
        else if containsCI "down".toList label then some false else none) with
    | none => rw [hcls] at h; simp at h
    | some across =>
      rw [hcls] at h
      dsimp only at h
      cases hb : byte_at d (i1 + 3) with
      | error e => rw [hb] at h; simp at h
      | ok n =>
        rw [hb] at h
        dsimp only at h
        cases hl : clueLoop d g across (n - 1) (i1 + 3 + 1) [] 0 with
        | error e => rw [hl] at h; simp at h
        | ok dpi =>
          rw [hl] at h
          obtain ⟨dict, i3, iters0⟩ := dpi
          have := clueLoop_mono (n - 1) (i1 + 3 + 1) [] 0 dict i3 iters0 hl
          simp only [Except.ok.injEq, Prod.mk.injEq] at h
          omega

theorem fillRow_congr {d1 d2 : List Nat} (hlen : d1.length = d2.length) :
    ∀ (row : List (Option Cell)) (i : Nat), SuffixAgree d1 d2 i →
      fillRow d1 row i = fillRow d2 row i := by
  intro row
  induction row with
  | nil => intro i h; rfl
  | cons oc rest ih =>
    intro i h
    cases oc with
    | none =>
      unfold fillRow
      rw [ih i h]
    | some c =>
      unfold fillRow
      rw [byte_at_congr (h i le_rfl)]
      cases byte_at d2 i with
      | error e => rfl
      | ok b =>
        dsimp only
        rw [ih (i + 1) (h.mono (by omega))]

theorem fillRow_mono {d : List Nat} :
    ∀ (row : List (Option Cell)) (i : Nat) (row' : List (Option Cell)) (i' : Nat),
      fillRow d row i = .ok (row', i') → i ≤ i' := by
  intro row
  induction row with
  | nil =>
    intro i row' i' h
    unfold fillRow at h
    simp only [Except.ok.injEq, Prod.mk.injEq] at h
    omega
  | cons oc rest ih =>
    intro i row' i' h
    cases oc with
    | none =>
      unfold fillRow at h
      cases hr : fillRow d rest i with
      | error e => rw [hr] at h; simp at h
      | ok ri =>
        rw [hr] at h
        obtain ⟨rest', j⟩ := ri
        have := ih i rest' j hr
        simp only [Except.ok.injEq, Prod.mk.injEq] at h
        omega
    | some c =>
      unfold fillRow at h
      cases hb : byte_at d i with
      | error e => rw [hb] at h; simp at h
      | ok b =>
        rw [hb] at h
        dsimp only at h
        cases hr : fillRow d rest (i + 1) with
        | error e => rw [hr] at h; simp at h
        | ok ri =>
          rw [hr] at h
          obtain ⟨rest', j⟩ := ri
          have := ih (i + 1) rest' j hr
          simp only [Except.ok.injEq, Prod.mk.injEq] at h
          omega

theorem fillRows_congr {d1 d2 : List Nat} (hlen : d1.length = d2.length) :
    ∀ (cells : List (List (Option Cell))) (i : Nat), SuffixAgree d1 d2 i →
      fillRows d1 cells i = fillRows d2 cells i := by
  intro cells
  induction cells with
  | nil => intro i h; rfl
  | cons row rest ih =>
    intro i h
    unfold fillRows
    rw [fillRow_congr hlen row i h]
    cases hr : fillRow d2 row i with
    | error e => rfl
    | ok ri =>
      obtain ⟨row', i'⟩ := ri
      dsimp only
      rw [ih i' (h.mono (fillRow_mono row i row' i' hr))]

theorem fillRows_mono {d : List Nat} :
    ∀ (cells : List (List (Option Cell))) (i : Nat)
      (cells' : List (List (Option Cell))) (i' : Nat),
      fillRows d cells i = .ok (cells', i') → i ≤ i' := by
  intro cells
  induction cells with
  | nil =>
    intro i cells' i' h
    unfold fillRows at h
    simp only [Except.ok.injEq, Prod.mk.injEq] at h
    omega
  | cons row rest ih =>
    intro i cells' i' h
    unfold fillRows at h
    cases hr : fillRow d row i with
    | error e => rw [hr] at h; simp at h
    | ok ri =>
      rw [hr] at h
      obtain ⟨row', j⟩ := ri
      dsimp only at h
      cases hrs : fillRows d rest j with
      | error e => rw [hrs] at h; simp at h
      | ok rsi =>
        rw [hrs] at h
        obtain ⟨rest', j'⟩ := rsi
        have h1 := fillRow_mono row i row' j hr
        have h2 := ih j rest' j' hrs
        simp only [Except.ok.injEq, Prod.mk.injEq] at h
        omega

theorem skippable_congr {d1 d2 : List Nat} {i : Nat} (h : SuffixAgree d1 d2 i) :
    skippable_block_of_four d1 i = skippable_block_of_four d2 i := by
  unfold skippable_block_of_four
  rw [pySlice_congr_suffix h le_rfl]

theorem fillerLoop_congr {d1 d2 : List Nat} :
    ∀ (fuel i : Nat), SuffixAgree d1 d2 i →
      fillerLoop d1 fuel i = fillerLoop d2 fuel i := by
  intro fuel
  induction fuel with
  | zero => intro i h; rfl
  | succ f ih =>
    intro i h
    unfold fillerLoop
    rw [skippable_congr h]
    by_cases hs : skippable_block_of_four d2 i = true
    · rw [if_pos hs, if_pos hs]
      exact ih (i + 4) (h.mono (by omega))
    · rw [if_neg hs, if_neg hs]

theorem fillerLoop_mono {d : List Nat} :
    ∀ (fuel i i' : Nat), fillerLoop d fuel i = .ok i' → i ≤ i' := by
  intro fuel
  induction fuel with
  | zero => intro i i' h; simp [fillerLoop] at h
  | succ f ih =>
    intro i i' h
    unfold fillerLoop at h
    by_cases hs : skippable_block_of_four d i = true
    · rw [if_pos hs] at h
      have := ih (i + 4) i' h
      omega
    · rw [if_neg hs] at h
      simp only [Except.ok.injEq] at h
      omega

theorem readPost_congr {d1 d2 : List Nat} {pos : Nat} {s : PreState}
    {t a pn c ds : Option (List Char)}
    (hlen : d1.length = d2.length) (h : SuffixAgree d1 d2 pos) :
    readPost d1 pos s t a pn c ds = readPost d2 pos s t a pn c ds := by
  unfold readPost
  rw [byte_at_congr (h pos le_rfl)]
  cases byte_at d2 pos with
  | error e => rfl
  | ok b =>
    dsimp only
    by_cases hb : b ≠ 1
    · rw [if_pos hb, if_pos hb]
    · rw [if_neg hb, if_neg hb, fillRows_congr hlen s.grid.cells (pos + 1) (h.mono (by omega))]
      cases hf : fillRows d2 s.grid.cells (pos + 1) with
      | error e => rfl
      | ok ci =>
        obtain ⟨cells', i1⟩ := ci
        dsimp only
        have hi1 : pos + 1 ≤ i1 := fillRows_mono s.grid.cells (pos + 1) cells' i1 hf
        rw [hlen, fillerLoop_congr (d2.length + 1) i1 (h.mono (by omega))]
        cases hfl : fillerLoop d2 (d2.length + 1) i1 with
        | error e => rfl
        | ok i2 =>
          dsimp only
          have hi2 : i1 ≤ i2 := fillerLoop_mono (d2.length + 1) i1 i2 hfl
          rw [byte_at_congr ((h.mono (by omega)) i2 le_rfl)]
          cases byte_at d2 i2 with
          | error e => rfl
          | ok b2 =>
            dsimp only
            by_cases hb2 : b2 ≠ 2
            · rw [if_pos hb2, if_pos hb2]
            · rw [if_neg hb2, if_neg hb2,
                parse_list_of_clues_congr hlen (h.mono (by omega : pos ≤ i2 + 16))]
              cases hac : parse_list_of_clues d2 (i2 + 16)
                  { s.grid with cells := cells' } with
              | error e => rfl
              | ok ai =>
                obtain ⟨across, i3, itA⟩ := ai
                dsimp only
                have hi3 : i2 + 16 ≤ i3 := parse_list_of_clues_mono hac
                rw [parse_list_of_clues_congr hlen (h.mono (by omega : pos ≤ i3))]

/-- The two buffers agree at every index below `j`. -/
def PrefixAgree (d1 d2 : List Nat) (j : Nat) : Prop :=
  ∀ k, k < j → d1[k]? = d2[k]?

theorem pySlice_congr_front {d1 d2 : List Nat} {j a b : Nat}
    (h : PrefixAgree d1 d2 j) (hb : b ≤ j) : pySlice d1 a b = pySlice d2 a b := by
  unfold pySlice
  apply List.filterMap_congr
  intro k hk
  obtain ⟨h1, h2⟩ := List.mem_range'_1.mp hk
  exact h k (by omega)

theorem read_string_front {d1 d2 : List Nat} {i j : Nat} {s : List Char} {i' : Nat}
    (h : read_string d1 i = .ok (s, i')) (hp : PrefixAgree d1 d2 j) (hj : i' ≤ j) :
    read_string d2 i = .ok (s, i') := by
  unfold read_string at h ⊢
  cases hb : byte_at d1 i with
  | error e => rw [hb] at h; simp at h
  | ok n =>
    rw [hb] at h
    dsimp only at h
    cases hd : decode_bytes (pySlice d1 (i + 1) (i + n + 1)) with
    | error e => rw [hd] at h; simp at h
    | ok str =>
      rw [hd] at h
      simp only [Except.ok.injEq, Prod.mk.injEq] at h
      obtain ⟨hs, hi⟩ := h
      have hib : i < j := by omega
      rw [← byte_at_congr (hp i hib), hb]
      dsimp only
      rw [← pySlice_congr_front hp (by omega : i + n + 1 ≤ j), hd]
      rw [hs, hi]

theorem buttonsLoop_mono {d : List Nat} :
    ∀ (fuel i p : Nat), buttonsLoop d fuel i = .ok p → i ≤ p := by
  intro fuel
  induction fuel with
  | zero => intro i p h; simp [buttonsLoop] at h
  | succ f ih =>
    intro i p h
    unfold buttonsLoop at h
    cases hb : byte_at d i with
    | error e => rw [hb] at h; simp at h
    | ok b =>
      rw [hb] at h
      dsimp only at h
      by_cases hb0 : b = 0
      · rw [if_pos hb0] at h
        simp only [Except.ok.injEq] at h
        omega
      · rw [if_neg hb0] at h
        cases hs : read_string d i with
        | error e => rw [hs] at h; simp at h
        | ok si =>
          rw [hs] at h
          obtain ⟨str, i'⟩ := si
          have h1 := read_string_mono hs
          have h2 := ih i' p h
          omega

theorem buttonsLoop_front {d1 d2 : List Nat} {j : Nat} (hp : PrefixAgree d1 d2 j) :
    ∀ (fuel i p : Nat), buttonsLoop d1 fuel i = .ok p → p < j →
      buttonsLoop d2 fuel i = .ok p := by
  intro fuel
  induction fuel with
  | zero => intro i p h _; simp [buttonsLoop] at h
  | succ f ih =>
    intro i p h hpj
    unfold buttonsLoop at h ⊢
    cases hb : byte_at d1 i with
    | error e => rw [hb] at h; simp at h
    | ok b =>
      rw [hb] at h
      dsimp only at h
      have hip : i ≤ p := by
        by_cases hb0 : b = 0
        · rw [if_pos hb0] at h
          simp only [Except.ok.injEq] at h
          omega
        · rw [if_neg hb0] at h
          cases hs : read_string d1 i with
          | error e => rw [hs] at h; simp at h
          | ok si =>
            rw [hs] at h
            obtain ⟨str, i'⟩ := si
            have h1 := read_string_mono hs
            have h2 := buttonsLoop_mono f i' p h
            omega
      rw [← byte_at_congr (hp i (by omega)), hb]
      dsimp only
      by_cases hb0 : b = 0
      · rw [if_pos hb0] at h ⊢
        exact h
      · rw [if_neg hb0] at h ⊢
        cases hs : read_string d1 i with
        | error e => rw [hs] at h; simp at h
        | ok si =>
          obtain ⟨str, i'⟩ := si
          rw [hs] at h
          have hi' : i' ≤ p := buttonsLoop_mono f i' p h
          rw [read_string_front hs hp (by omega)]
          exact ih i' p h hpj

theorem skipUntilMarker_mono {d : List Nat} :
    ∀ (fuel i m : Nat), skipUntilMarker d fuel i = .ok m → i ≤ m := by
  intro fuel
  induction fuel with
  | zero => intro i m h; simp [skipUntilMarker] at h
  | succ f ih =>
    intro i m h
    unfold skipUntilMarker at h
    cases hb : byte_at d i with
    | error e => rw [hb] at h; simp at h
    | ok b =>
      rw [hb] at h
      dsimp only at h
      by_cases hm : b = 0x3f ∨ b = 0x23
      · rw [if_pos hm] at h
        simp only [Except.ok.injEq] at h
        omega
      · rw [if_neg hm] at h
        have := ih (i + 1) m h
        omega

theorem skipUntilMarker_front {d1 d2 : List Nat} {j : Nat} (hp : PrefixAgree d1 d2 j) :
    ∀ (fuel i m : Nat), skipUntilMarker d1 fuel i = .ok m → m < j →
      skipUntilMarker d2 fuel i = .ok m := by
  intro fuel
  induction fuel with
  | zero => intro i m h _; simp [skipUntilMarker] at h
  | succ f ih =>
    intro i m h hmj
    unfold skipUntilMarker at h ⊢
    cases hb : byte_at d1 i with
    | error e => rw [hb] at h; simp at h
    | ok b =>
      rw [hb] at h
      dsimp only at h
      have him : i ≤ m := by
        by_cases hm : b = 0x3f ∨ b = 0x23
        · rw [if_pos hm] at h
          simp only [Except.ok.injEq] at h
          omega
        · rw [if_neg hm] at h
          have := skipUntilMarker_mono f (i + 1) m h
          omega
      rw [← byte_at_congr (hp i (by omega)), hb]
      dsimp only
      by_cases hm : b = 0x3f ∨ b = 0x23
      · rw [if_pos hm] at h ⊢
        exact h
      · rw [if_neg hm] at h ⊢
        exact ih (i + 1) m h hmj

theorem readGridRow_pos {d : List Nat} {y : Nat} :
    ∀ (cols x i : Nat) (row : List (Option Cell)) (i' : Nat),
      readGridRow d y cols x i = .ok (row, i') → i' = i + cols := by
  intro cols
  induction cols with
  | zero =>
    intro x i row i' h
    unfold readGridRow at h
    simp only [Except.ok.injEq, Prod.mk.injEq] at h
    omega
  | succ c ih =>
    intro x i row i' h
    unfold readGridRow at h
    cases hb : byte_at d i with
    | error e => rw [hb] at h; simp at h
    | ok b =>
      rw [hb] at h
      dsimp only at h
      by_cases h1 : b = 0x3f ∨ b = 0x4d
      · rw [if_pos h1] at h
        cases hr : readGridRow d y c (x + 1) (i + 1) with
        | error e => rw [hr] at h; simp at h
        | ok ri =>
          rw [hr] at h
          obtain ⟨rest, j⟩ := ri
          have := ih (x + 1) (i + 1) rest j hr
          simp only [Except.ok.injEq, Prod.mk.injEq] at h
          omega
      · rw [if_neg h1] at h
        by_cases h2 : b = 0x23
        · rw [if_pos h2] at h
          cases hr : readGridRow d y c (x + 1) (i + 1) with
          | error e => rw [hr] at h; simp at h
          | ok ri =>
            rw [hr] at h
            obtain ⟨rest, j⟩ := ri
            have := ih (x + 1) (i + 1) rest j hr
            simp only [Except.ok.injEq, Prod.mk.injEq] at h
            omega
        · rw [if_neg h2] at h
          simp at h

theorem readGridRow_front {d1 d2 : List Nat} {y j : Nat} (hp : PrefixAgree d1 d2 j) :
    ∀ (cols x i : Nat) (row : List (Option Cell)) (i' : Nat),
      readGridRow d1 y cols x i = .ok (row, i') → i' ≤ j →
      readGridRow d2 y cols x i = .ok (row, i') := by
  intro cols
  induction cols with
  | zero =>
    intro x i row i' h _
    exact h
  | succ c ih =>
    intro x i row i' h hj
    have hpos := readGridRow_pos (c + 1) x i row i' h
    unfold readGridRow at h ⊢
    cases hb : byte_at d1 i with
    | error e => rw [hb] at h; simp at h
    | ok b =>
      rw [hb] at h
      dsimp only at h
      rw [← byte_at_congr (hp i (by omega)), hb]
      dsimp only
      by_cases h1 : b = 0x3f ∨ b = 0x4d
      · rw [if_pos h1] at h ⊢
        cases hr : readGridRow d1 y c (x + 1) (i + 1) with
        | error e => rw [hr] at h; simp at h
        | ok ri =>
          obtain ⟨rest, jj⟩ := ri
          have hjj := readGridRow_pos c (x + 1) (i + 1) rest jj hr
          rw [hr] at h
          rw [ih (x + 1) (i + 1) rest jj hr (by omega)]
          exact h
      · rw [if_neg h1] at h ⊢
        by_cases h2 : b = 0x23
        · rw [if_pos h2] at h ⊢
          cases hr : readGridRow d1 y c (x + 1) (i + 1) with
          | error e => rw [hr] at h; simp at h
          | ok ri =>
            obtain ⟨rest, jj⟩ := ri
            have hjj := readGridRow_pos c (x + 1) (i + 1) rest jj hr
            rw [hr] at h
            rw [ih (x + 1) (i + 1) rest jj hr (by omega)]
            exact h
        · rw [if_neg h2] at h
          simp at h

theorem readGridRows_pos {d : List Nat} {w : Nat} :
    ∀ (rows y i : Nat) (cells : List (List (Option Cell))) (i' : Nat),
      readGridRows d w rows y i = .ok (cells, i') → i' = i + rows * w := by
  intro rows
  induction rows with
  | zero =>
    intro y i cells i' h
    unfold readGridRows at h
    simp only [Except.ok.injEq, Prod.mk.injEq] at h
    omega
  | succ r ih =>
    intro y i cells i' h
    unfold readGridRows at h
    cases hr : readGridRow d y w 0 i with
    | error e => rw [hr] at h; simp at h
    | ok ri =>
      rw [hr] at h
      obtain ⟨row, j⟩ := ri
      dsimp only at h
      cases hrs : readGridRows d w r (y + 1) j with
      | error e => rw [hrs] at h; simp at h
      | ok rsi =>
        rw [hrs] at h
        obtain ⟨rest, j'⟩ := rsi
        have h1 := readGridRow_pos w 0 i row j hr
        have h2 := ih (y + 1) j rest j' hrs
        simp only [Except.ok.injEq, Prod.mk.injEq] at h
        have : (r + 1) * w = r * w + w := by ring
        omega

theorem readGridRows_front {d1 d2 : List Nat} {w j : Nat} (hp : PrefixAgree d1 d2 j) :
    ∀ (rows y i : Nat) (cells : List (List (Option Cell))) (i' : Nat),
      readGridRows d1 w rows y i = .ok (cells, i') → i' ≤ j →
      readGridRows d2 w rows y i = .ok (cells, i') := by
  intro rows
  induction rows with
  | zero =>
    intro y i cells i' h _
    exact h
  | succ r ih =>
    intro y i cells i' h hj
    unfold readGridRows at h ⊢
    cases hr : readGridRow d1 y w 0 i with
    | error e => rw [hr] at h; simp at h
    | ok ri =>
      rw [hr] at h
      obtain ⟨row, jj⟩ := ri
      dsimp only at h
      cases hrs : readGridRows d1 w r (y + 1) jj with
      | error e => rw [hrs] at h; simp at h
      | ok rsi =>
        rw [hrs] at h
        obtain ⟨rest, j'⟩ := rsi
        have h2 := readGridRows_pos r (y + 1) jj rest j' hrs
        simp only [Except.ok.injEq, Prod.mk.injEq] at h
        obtain ⟨hc, hi⟩ := h
        rw [readGridRow_front hp w 0 i row jj hr (by omega)]
        dsimp only
        rw [ih (y + 1) jj rest j' hrs (by omega)]
        dsimp only
        rw [hc, hi]

theorem readPre_front {d1 d2 : List Nat} {s : PreState}
    (h : readPre d1 = .ok s) (hwh : 0 < s.width * s.height)
    (hlen : d1.length = d2.length) (hp : PrefixAgree d1 d2 s.pos) :
    readPre d2 = .ok s := by
  unfold readPre at h ⊢
  cases hb : buttonsLoop d1 (d1.length + 1) 2 with
  | error e => rw [hb] at h; simp at h
  | ok nulPos =>
    rw [hb] at h
    dsimp only at h
    cases hc : read_string d1 (nulPos + 1) with
    | error e => rw [hc] at h; simp at h
    | ok ci =>
      rw [hc] at h
      obtain ⟨congrats, i1⟩ := ci
      dsimp only at h
      cases hw : byte_at d1 (i1 + 1) with
      | error e => rw [hw] at h; simp at h
      | ok w =>
        rw [hw] at h
        dsimp only at h
        cases hh : byte_at d1 (i1 + 2) with
        | error e => rw [hh] at h; simp at h
        | ok hgt =>
          rw [hh] at h
          dsimp only at h
          cases hm : skipUntilMarker d1 (d1.length + 1) (i1 + 3) with
          | error e => rw [hm] at h; simp at h
          | ok m =>
            rw [hm] at h
            dsimp only at h
            cases hg : readGridRows d1 w hgt 0 m with
            | error e => rw [hg] at h; simp at h
            | ok ci2 =>
              rw [hg] at h
              obtain ⟨cells, i2⟩ := ci2
              simp only [Except.ok.injEq] at h
              subst h
              dsimp only at hp hwh ⊢
              have hpos := readGridRows_pos hgt 0 m cells i2 hg
              have hmono1 := buttonsLoop_mono (d1.length + 1) 2 nulPos hb
              have hmono2 := read_string_mono hc
              have hmono3 := skipUntilMarker_mono (d1.length + 1) (i1 + 3) m hm
              have hcomm : hgt * w = w * hgt := Nat.mul_comm hgt w
              have hmi : m < i2 := by omega
              rw [← hlen]
              rw [buttonsLoop_front hp (d1.length + 1) 2 nulPos hb (by omega)]
              dsimp only
              rw [read_string_front hc hp (by omega)]
              dsimp only
              rw [← byte_at_congr (hp (i1 + 1) (by omega)), hw]
              dsimp only
              rw [← byte_at_congr (hp (i1 + 2) (by omega)), hh]
              dsimp only
              rw [skipUntilMarker_front hp (d1.length + 1) (i1 + 3) m hm (by omega)]
              dsimp only
              rw [readGridRows_front hp hgt 0 m cells i2 hg (le_refl i2)]

theorem readSecRow_pos {d : List Nat} :
    ∀ (w i : Nat) (r : List Char) (i' : Nat),
      readSecRow d w i = .ok (r, i') → i' = i + w := by
  intro w
  induction w with
  | zero =>
    intro i r i' h
    unfold readSecRow at h
    simp only [Except.ok.injEq, Prod.mk.injEq] at h
    omega
  | succ c ih =>
    intro i r i' h
    unfold readSecRow at h
    cases hb : byte_at d i with
    | error e => rw [hb] at h; simp at h
    | ok b =>
      rw [hb] at h
      dsimp only at h
      cases hr : readSecRow d c (i + 1) with
      | error e => rw [hr] at h; simp at h
      | ok ri =>
        rw [hr] at h
        obtain ⟨rest, j⟩ := ri
        have := ih (i + 1) rest j hr
        simp only [Except.ok.injEq, Prod.mk.injEq] at h
        omega

theorem readSec_pos {d : List Nat} {w : Nat} :
    ∀ (rows i : Nat) (r : List (List Char)) (i' : Nat),
      readSec d w rows i = .ok (r, i') → i' = i + rows * w := by
  intro rows
  induction rows with
  | zero =>
    intro i r i' h
    unfold readSec at h
    simp only [Except.ok.injEq, Prod.mk.injEq] at h
    omega
  | succ c ih =>
    intro i r i' h
    unfold readSec at h
    cases hr : readSecRow d w i with
    | error e => rw [hr] at h; simp at h
    | ok ri =>
      rw [hr] at h
      obtain ⟨row, j⟩ := ri
      dsimp only at h
      cases hrs : readSec d w c j with
      | error e => rw [hrs] at h; simp at h
      | ok rsi =>
        rw [hrs] at h
        obtain ⟨rest, j'⟩ := rsi
        have h1 := readSecRow_pos w i row j hr
        have h2 := ih j rest j' hrs
        simp only [Except.ok.injEq, Prod.mk.injEq] at h
        have : (c + 1) * w = c * w + w := by ring
        omega

theorem readSecRow_transfer {d1 d2 : List Nat} (hlen : d1.length = d2.length) :
    ∀ (w i : Nat) (r : List Char) (j : Nat),
      readSecRow d1 w i = .ok (r, j) → ∃ r2, readSecRow d2 w i = .ok (r2, j) := by
  intro w
  induction w with
  | zero =>
    intro i r j h
    unfold readSecRow at h ⊢
    simp only [Except.ok.injEq, Prod.mk.injEq] at h
    exact ⟨[], by rw [h.2]⟩
  | succ c ih =>
    intro i r j h
    unfold readSecRow at h ⊢
    cases hb : byte_at d1 i with
    | error e => rw [hb] at h; simp at h
    | ok b =>
      rw [hb] at h
      dsimp only at h
      cases hr : readSecRow d1 c (i + 1) with
      | error e => rw [hr] at h; simp at h
      | ok ri =>
        rw [hr] at h
        obtain ⟨rest, j0⟩ := ri
        simp only [Except.ok.injEq, Prod.mk.injEq] at h
        obtain ⟨r2, hr2⟩ := ih (i + 1) rest j0 hr
        have hi : i < d2.length := hlen ▸ byte_at_ok_lt hb
        have hb2 : byte_at d2 i = .ok (d2.getD i 0) := by
          unfold byte_at
          rw [List.getElem?_eq_getElem hi]
          rw [List.getD_eq_getElem d2 0 hi]
        rw [hb2]
        dsimp only
        rw [hr2]
        exact ⟨_, by rw [h.2]⟩

theorem readSec_transfer {d1 d2 : List Nat} {w : Nat} (hlen : d1.length = d2.length) :
    ∀ (rows i : Nat) (r : List (List Char)) (j : Nat),
      readSec d1 w rows i = .ok (r, j) → ∃ r2, readSec d2 w rows i = .ok (r2, j) := by
  intro rows
  induction rows with
  | zero =>
    intro i r j h
    unfold readSec at h ⊢
    simp only [Except.ok.injEq, Prod.mk.injEq] at h
    exact ⟨[], by rw [h.2]⟩
  | succ c ih =>
    intro i r j h
    unfold readSec at h ⊢
    cases hr : readSecRow d1 w i with
    | error e => rw [hr] at h; simp at h
    | ok ri =>
      rw [hr] at h
      obtain ⟨row, j0⟩ := ri
      dsimp only at h
      cases hrs : readSec d1 w c j0 with
      | error e => rw [hrs] at h; simp at h
      | ok rsi =>
        rw [hrs] at h
        obtain ⟨rest, j'⟩ := rsi
        simp only [Except.ok.injEq, Prod.mk.injEq] at h
        obtain ⟨row2, hrow2⟩ := readSecRow_transfer hlen w i row j0 hr
        obtain ⟨rest2, hrest2⟩ := ih j0 rest j' hrs
        rw [hrow2]
        dsimp only
        rw [hrest2]
        exact ⟨_, by rw [h.2]⟩

theorem agree_outside_patch (pre mid1 mid2 suf : List Nat)
    (hm : mid1.length = mid2.length) :
    ∀ k, k < pre.length ∨ pre.length + mid1.length ≤ k →
      (pre ++ mid1 ++ suf)[k]? = (pre ++ mid2 ++ suf)[k]? := by
  intro k hk
  rw [List.append_assoc, List.append_assoc]
  rcases hk with hk | hk
  · have e : ∀ (m : List Nat), (pre ++ m)[k]? = pre[k]? := by
      intro m
      rw [List.getElem?_append, if_pos hk]
    rw [e, e]
  · have e : ∀ (m : List Nat), m.length = mid1.length →
        (pre ++ (m ++ suf))[k]? = suf[k - pre.length - mid1.length]? := by
      intro m hm'
      rw [List.getElem?_append, if_neg (by omega), List.getElem?_append,
        if_neg (by omega), hm']
    rw [e mid1 rfl, e mid2 hm.symm]

/-- C9: the secondary numeric layer does not interfere with decoding.  For
two buffers of the same length that agree everywhere except inside the
`width × height` secondary-layer region (which starts at the position the
pre-layer decoder stops at), any two successful decodes yield the same
puzzle — grids, clue sets and metadata included — and hence identical
encoder output; the layer's bytes reach only the local diagnostic grid the
decoder drops. -/
theorem secondary_layer_noninterference
    (d1 d2 : List Nat) (t a pn c ds : Option (List Char)) (s : PreState)
    (p1 p2 : ParsedCCJ)
    (hpre : readPre d1 = .ok s)
    (hlen : d1.length = d2.length)
    (hagree : ∀ k, k < s.pos ∨ s.pos + s.width * s.height ≤ k → d1[k]? = d2[k]?)
    (h1 : read_from_ccj d1 t a pn c ds = .ok p1)
    (h2 : read_from_ccj d2 t a pn c ds = .ok p2) :
    p1 = p2 ∧ write_to_puz_file p1 = write_to_puz_file p2 := by
  suffices hp12 : p1 = p2 by
    exact ⟨hp12, by rw [hp12]⟩
  by_cases hwh : s.width * s.height = 0
  · have hd : d1 = d2 := List.ext_getElem? (fun k => hagree k (by omega))
    rw [hd] at h1
    rw [h1] at h2
    exact Except.ok.inj h2
  · have hwh' : 0 < s.width * s.height := Nat.pos_of_ne_zero hwh
    have hpref : PrefixAgree d1 d2 s.pos := fun k hk => hagree k (Or.inl hk)
    have hpre2 : readPre d2 = .ok s := readPre_front hpre hwh' hlen hpref
    unfold read_from_ccj at h1 h2
    rw [hpre] at h1
    rw [hpre2] at h2
    dsimp only at h1 h2
    cases hsec : readSec d1 s.width s.height s.pos with
    | error e => rw [hsec] at h1; simp at h1
    | ok li =>
      rw [hsec] at h1
      obtain ⟨ltrs, pos'⟩ := li
      dsimp only at h1
      have hpos' : pos' = s.pos + s.height * s.width :=
        readSec_pos s.height s.pos ltrs pos' hsec
      obtain ⟨ltrs2, hsec2⟩ := readSec_transfer hlen s.height s.pos ltrs pos' hsec
      rw [hsec2] at h2
      dsimp only at h2
      have hsuf : SuffixAgree d1 d2 pos' := by
        intro k hk
        apply hagree
        right
        have hcomm : s.height * s.width = s.width * s.height := Nat.mul_comm s.height s.width
        omega
      rw [readPost_congr hlen hsuf] at h1
      rw [h1] at h2
      exact Except.ok.inj h2


/-- The bytes of a small CCJ file up to (excluding) the secondary layer:
magic prefix, no button strings, empty congratulations, one skipped byte,
2×2 dimensions, and a fully-light grid layer. -/
def ccjPre : List Nat :=
  [0, 0, 0, 0, 0, 2, 2, 0x3f, 0x3f, 0x3f, 0x3f]

/-- The bytes of that CCJ file after the secondary layer: the 0x01
separator, four answer letters, the 0x02 marker with its 16-byte block,
and across/down clue sections of two clues each. -/
def ccjSuf : List Nat :=
  [1,
   71, 79, 65, 84,
   2, 0, 0, 0, 0, 0, 0, 0, 0, 0, 0, 0, 0, 0, 0, 0,
   6, 65, 99, 114, 111, 115, 115,
   0, 0, 0,
   2,
   0, 0, 1, 49, 0, 3, 97, 98, 99,
   1, 0, 1, 51, 0, 3, 100, 101, 102,
   4, 68, 111, 119, 110,
   0, 0, 0,
   2,
   0, 0, 1, 49, 0, 3, 103, 104, 105,
   1, 0, 1, 50, 0, 3, 106, 107, 108]

/-- First witness buffer: all-zero secondary layer. -/
def ccjD1 : List Nat := ccjPre ++ [0, 0, 0, 0] ++ ccjSuf

/-- Second witness buffer: same except for the four secondary-layer bytes. -/
def ccjD2 : List Nat := ccjPre ++ [5, 6, 7, 8] ++ ccjSuf

/-- Clue numbering of the fully-light 2×2 grid: 1 starts across and down,
2 starts down only, 3 starts across only. -/
def ccjEntries : List (Nat × ClueNumEntry) :=
  [(1, ⟨0, 0, true, true⟩), (2, ⟨1, 0, false, true⟩), (3, ⟨0, 1, true, false⟩)]

/-- The numbered 2×2 grid decoded from `ccjPre`. -/
def ccjGrid : Grid :=
  ⟨2, 2,
   [[some ⟨'+', 0, 0⟩, some ⟨'+', 0, 1⟩], [some ⟨'+', 1, 0⟩, some ⟨'+', 1, 1⟩]],
   ccjEntries⟩

/-- The pre-layer state after `readPre` on either buffer: the secondary
layer starts at byte 11. -/
def ccjS : PreState := ⟨11, 2, 2, ccjGrid⟩

/-- The grid cells after the answer layer is filled in. -/
def ccjCellsF : List (List (Option Cell)) :=
  [[some ⟨'G', 0, 0⟩, some ⟨'O', 0, 1⟩], [some ⟨'A', 1, 0⟩, some ⟨'T', 1, 1⟩]]

/-- The decoded across section of the witness buffers. -/
def ccjAcross : ListOfClues :=
  ⟨['A', 'c', 'r', 'o', 's', 's'], true, [0, 0, 0], 2,
   [(1, ⟨['1'], ['a', 'b', 'c'], some [(0, 0)], true, [(1, true)]⟩),
    (3, ⟨['3'], ['d', 'e', 'f'], some [(1, 0)], true, [(3, true)]⟩)]⟩

/-- The decoded down section of the witness buffers. -/
def ccjDown : ListOfClues :=
  ⟨['D', 'o', 'w', 'n'], false, [0, 0, 0], 2,
   [(1, ⟨['1'], ['g', 'h', 'i'], some [(0, 0)], false, [(1, false)]⟩),
    (2, ⟨['2'], ['j', 'k', 'l'], some [(1, 0)], false, [(2, false)]⟩)]⟩

/-- The puzzle decoded from the first witness buffer. -/
def ccjP1 : ParsedCCJ :=
  ⟨2, 2, ⟨2, 2, ccjCellsF, ccjEntries⟩, ccjAcross, ccjDown, none, none,
   "Crossword".toList, "Unknown Setter".toList, "Â© Unknown".toList⟩

/-- The puzzle decoded from the second witness buffer (the same value: the
secondary layer is dropped). -/
def ccjP2 : ParsedCCJ :=
  ⟨2, 2, ⟨2, 2, ccjCellsF, ccjEntries⟩, ccjAcross, ccjDown, none, none,
   "Crossword".toList, "Unknown Setter".toList, "Â© Unknown".toList⟩

/-- The first witness buffer decodes to `ccjP1` (evaluated stage by stage so
every intermediate stream position is a literal). -/
theorem ccj_read1 : read_from_ccj ccjD1 none none none none none = .ok ccjP1 := by
  have hpre : readPre ccjD1 = .ok ccjS := by decide
  have hsec : readSec ccjD1 ccjS.width ccjS.height ccjS.pos =
      .ok ([[' ', ' '], [' ', ' ']], 15) := by decide
  have hb : byte_at ccjD1 15 = .ok 1 := by decide
  have hfill : fillRows ccjD1 ccjS.grid.cells (15 + 1) = .ok (ccjCellsF, 20) := by decide
  have hfl : fillerLoop ccjD1 (ccjD1.length + 1) 20 = .ok 20 := by decide
  have hb2 : byte_at ccjD1 20 = .ok 2 := by decide
  have hac : parse_list_of_clues ccjD1 (20 + 16)
      { ccjS.grid with cells := ccjCellsF } = .ok (ccjAcross, 65, 2) := by decide
  have hdn : parse_list_of_clues ccjD1 65
      { ccjS.grid with cells := ccjCellsF } = .ok (ccjDown, 92, 2) := by decide
  unfold read_from_ccj
  rw [hpre]
  dsimp only
  rw [hsec]
  dsimp only
  unfold readPost
  rw [hb]
  dsimp only
  rw [if_neg (by decide : ¬((1 : Nat) ≠ 1))]
  rw [hfill]
  dsimp only
  rw [hfl]
  dsimp only
  rw [hb2]
  dsimp only
  rw [if_neg (by decide : ¬((2 : Nat) ≠ 2))]
  rw [hac]
  dsimp only
  rw [hdn]
  dsimp only
  rfl

/-- The second witness buffer decodes to `ccjP2`: only the discarded
secondary rows differ along the way. -/
theorem ccj_read2 : read_from_ccj ccjD2 none none none none none = .ok ccjP2 := by
  have hpre : readPre ccjD2 = .ok ccjS := by decide
  have hsec : readSec ccjD2 ccjS.width ccjS.height ccjS.pos =
      .ok ([['5', '6'], ['7', '8']], 15) := by decide
  have hb : byte_at ccjD2 15 = .ok 1 := by decide
  have hfill : fillRows ccjD2 ccjS.grid.cells (15 + 1) = .ok (ccjCellsF, 20) := by decide
  have hfl : fillerLoop ccjD2 (ccjD2.length + 1) 20 = .ok 20 := by decide
  have hb2 : byte_at ccjD2 20 = .ok 2 := by decide
  have hac : parse_list_of_clues ccjD2 (20 + 16)
      { ccjS.grid with cells := ccjCellsF } = .ok (ccjAcross, 65, 2) := by decide
  have hdn : parse_list_of_clues ccjD2 65
      { ccjS.grid with cells := ccjCellsF } = .ok (ccjDown, 92, 2) := by decide
  unfold read_from_ccj
  rw [hpre]
  dsimp only
  rw [hsec]
  dsimp only
  unfold readPost
  rw [hb]
  dsimp only
  rw [if_neg (by decide : ¬((1 : Nat) ≠ 1))]
  rw [hfill]
  dsimp only
  rw [hfl]
  dsimp only
  rw [hb2]
  dsimp only
  rw [if_neg (by decide : ¬((2 : Nat) ≠ 2))]
  rw [hac]
  dsimp only
  rw [hdn]
  dsimp only
  rfl

/-- Witness for C9: two concrete CCJ buffers that differ only in the four
secondary-layer bytes decode to the same puzzle and encode to the same PUZ
bytes. -/
theorem secondary_layer_noninterference_witness :
    ccjP1 = ccjP2 ∧ write_to_puz_file ccjP1 = write_to_puz_file ccjP2 :=
  secondary_layer_noninterference ccjD1 ccjD2 none none none none none ccjS ccjP1 ccjP2
    (by decide) (by decide)
    (fun k hk => agree_outside_patch ccjPre [0, 0, 0, 0] [5, 6, 7, 8] ccjSuf rfl k hk)
    ccj_read1 ccj_read2
